import Mathlib

/-!
# hsspsoap: multipart decoder and request router

A shallow embedding of `GetPDBFileFromPayload` and `hssp_server::handle_request`
from `src/hsspsoap.cpp`, with the properties of the decoder and the router
stated and proved over it.

Strings (`std::string`) are lists of characters.  The two unbounded `for (;;)`
loops of the decoder take a fuel argument: `none` means that the loop is still
running when the fuel is used up.
-/

namespace Xssp

/-- Byte strings of the program (`std::string`). -/
abbrev Str := List Char

/-- How a call ends: it returns a value, or it throws an exception whose
`what()` is the given message. -/
inductive Outcome (α : Type) where
  | returned (a : α)
  | thrown (what : Str)
deriving DecidableEq

/-! ## Library primitives used by the decoder -/

/-- The predicate `boost::algorithm::starts_with(s, p)`. -/
def starts_with (s p : Str) : Bool := p.isPrefixOf s

/-- The input filter `io::newline_filter(io::newline::posix)`: a CR LF pair, a
lone CR and a lone LF all come out as one LF. -/
def newline_filter : Str → Str
  | [] => []
  | [c] => if c = '\r' then ['\n'] else [c]
  | c :: d :: u =>
    if c = '\r' then
      if d = '\n' then '\n' :: newline_filter u else '\n' :: newline_filter (d :: u)
    else c :: newline_filter (d :: u)

/-- State of the input stream `in`: the characters not yet extracted and the
two state bits that `std::getline` reads and writes. -/
structure istream where
  buf : Str
  eofbit : Bool
  failbit : Bool
deriving DecidableEq

/-- The test `in.good()`. -/
def istream.good (s : istream) : Bool := !s.eofbit && !s.failbit

/-- The test `in.eof()`. -/
def istream.eof (s : istream) : Bool := s.eofbit

/-- Characters extracted by one `std::getline`: everything before the first
line feed, and what follows it (`none` when the end of input is hit first). -/
def extractLine : Str → Str × Option Str
  | [] => ([], none)
  | c :: t =>
    if c = '\n' then ([], some t)
    else ((c :: (extractLine t).1), (extractLine t).2)

/-- The call `std::getline(in, str)`.  When the stream is not `good()` the sentry
fails: `failbit` is set and `str` keeps its old value.  Otherwise `str` is erased
and filled up to the line feed (extracted, not stored) or to the end of input,
which sets `eofbit`, and `failbit` too when nothing was extracted. -/
def getline (s : istream) (str : Str) : istream × Str :=
  if s.good then
    match extractLine s.buf with
    | (l, some rest) => ({ s with buf := rest }, l)
    | (l, none) => ({ buf := [], eofbit := true, failbit := l.isEmpty }, l)
  else ({ s with failbit := true }, str)

/-- Membership in the class `\w` of the regular expressions. -/
def isWordChar (c : Char) : Bool := c.isAlphanum || c == '_'

/-- The assertion `\b` between a previous and a next character (either may be
missing at the ends of the subject). -/
def wordBoundary (prev next : Option Char) : Bool :=
  ((prev.map isWordChar).getD false) != ((next.map isWordChar).getD false)

/-- Anchored match of `key="([^"]+)"` at the head of `s`, giving group 1: the
longest run of characters other than the quote, which must be non-empty and be
followed by a quote. -/
def matchQuoted (key s : Str) : Option Str :=
  if (key ++ ['=', '"']).isPrefixOf s then
    let t := s.drop (key.length + 2)
    let v := t.takeWhile (fun c => c != '"')
    if v.isEmpty then none
    else
      match t.drop v.length with
      | [] => none
      | _ :: _ => some v
  else none

/-- The search `boost::regex_search(line, m, re)` for `re = \bkey="([^"]+)"`:
group 1 of the leftmost match, `prev` being the character before the current
position. -/
def regex_search : Str → Option Char → Str → Option Str
  | _, _, [] => none
  | key, prev, c :: t =>
    if wordBoundary prev (some c) then
      match matchQuoted key (c :: t) with
      | some v => some v
      | none => regex_search key (some c) t
    else regex_search key (some c) t

/-- The expression `nre`, `\bname="([^"]+)"`, searched in a line. -/
def nre (line : Str) : Option Str := regex_search "name".toList none line

/-- The expression `fre`, `\bfilename="([^"]+)"`, searched in a line. -/
def fre (line : Str) : Option Str := regex_search "filename".toList none line

/-! ## GetPDBFileFromPayload -/

/-- The message of the two `THROW` sites of the decoder. -/
def kUnexpectedEOF : Str := "Unexpected end of file".toList

/-- The header prefix tested at line 102. -/
def kContentDisposition : Str := "Content-Disposition: form-data".toList

/-- The test `name == "pdb" or name == "pdbfile"`. -/
def isTarget (name : Str) : Bool := name == "pdb".toList || name == "pdbfile".toList

/-- The inner `for (;;)` (lines 127-139): read body lines up to the next line
that starts with the boundary, appending them to `pdb` when the current name
is a target.  Gives the stream, the boundary line read and `pdb`. -/
def readBody : Nat → istream → Str → Str → Str → Str →
    Option (Outcome (istream × Str × Str))
  | 0, _, _, _, _, _ => none
  | fuel + 1, s, boundary, name, line, pdb =>
    let r := getline s line
    if r.2.isEmpty && r.1.eof then some (.thrown kUnexpectedEOF)
    else if starts_with r.2 boundary then some (.returned (r.1, r.2, pdb))
    else if isTarget name then readBody fuel r.1 boundary name r.2 (pdb ++ r.2 ++ ['\n'])
    else readBody fuel r.1 boundary name r.2 pdb

/-- The name set by a `Content-Disposition: form-data` line (lines 107-110). -/
def nameOf (line : Str) : Str :=
  match nre line with
  | some m => m
  | none => "undef".toList

/-- The filename after a `Content-Disposition: form-data` line (lines 113-114). -/
def fileOf (line file : Str) : Str :=
  match fre line with
  | some m => m
  | none => file

/-- The outer `for (;;)` (lines 91-147): one iteration reads one header line;
at the blank line the body is read and the two stop conditions are tested. -/
def readParts : Nat → istream → Str → Str → Str → Str → Option (Outcome (Str × Str))
  | 0, _, _, _, _, _ => none
  | fuel + 1, s, boundary, name, file, pdb =>
    let r := getline s []
    if r.2.isEmpty && r.1.eof then some (.thrown kUnexpectedEOF)
    else if starts_with r.2 kContentDisposition then
      readParts fuel r.1 boundary (nameOf r.2) (fileOf r.2 file) pdb
    else if !r.2.isEmpty then readParts fuel r.1 boundary name file pdb
    else
      match readBody fuel r.1 boundary name r.2 pdb with
      | none => none
      | some (.thrown e) => some (.thrown e)
      | some (.returned (s1, line, pdb1)) =>
        if isTarget name && decide (pdb1.length > 2) then some (.returned (pdb1, file))
        else if (line.drop boundary.length).take 2 == "--".toList then some (.returned (pdb1, file))
        else readParts fuel s1 boundary name file pdb1

/-- The function `GetPDBFileFromPayload(payload, pdb, file)`, `pdb` and `file`
being passed by reference: the result is their final value, or the message of
the exception thrown. -/
def GetPDBFileFromPayload (fuel : Nat) (payload pdb file : Str) :
    Option (Outcome (Str × Str)) :=
  let r := getline ⟨newline_filter payload, false, false⟩ []
  readParts fuel r.1 r.2 [] file pdb

/-! ## Library primitives used by the router -/

/-- The call `s.find_first_of(c, pos)`: index of the first `c` at or after
`pos`, `none` standing for `npos`. -/
def find_first_of (s : Str) (c : Char) (pos : Nat) : Option Nat :=
  let i := (s.drop pos).indexOf c
  if i < (s.drop pos).length then some (pos + i) else none

/-- The call `s.find(needle)`: index of the first occurrence, `none` standing
for `npos`. -/
def find : Str → Str → Option Nat
  | [], needle => if needle.isEmpty then some 0 else none
  | c :: t, needle =>
    if needle.isPrefixOf (c :: t) then some 0
    else (find t needle).map (fun i => i + 1)

/-- The call `boost::algorithm::replace_first(s, search, fmt)`. -/
def replace_first (s search fmt : Str) : Str :=
  match find s search with
  | some p => s.take p ++ fmt ++ s.drop (p + search.length)
  | none => s

/-- The last element of a `boost::filesystem::path`: what follows the last
slash. -/
def path_filename (p : Str) : Str := (p.reverse.takeWhile (fun c => c != '/')).reverse

/-- The extension of a `boost::filesystem::path`: from the last dot
of the filename on, empty when the filename has no dot or is `.` or `..`. -/
def path_extension (p : Str) : Str :=
  let f := path_filename p
  if f == ['.'] || f == ['.', '.'] then []
  else if f.contains '.' then '.' :: (f.reverse.takeWhile (fun c => c != '.')).reverse
  else []

/-- The call `file.replace_extension(ext)` of `boost::filesystem::path`: the
old extension is removed and the new one appended, with a dot put before it
when it has none. -/
def replace_extension (p ext : Str) : Str :=
  p.take (p.length - (path_extension p).length)
    ++ (if !ext.isEmpty && ext.head? != some '.' then ['.'] else []) ++ ext

/-- A request as the router reads it (`zeep::http::request`). -/
structure request where
  method : Str
  uri : Str
  payload : Str
deriving DecidableEq

/-- A reply as the router writes it (`zeep::http::reply`): the content, its
type, and the other headers. -/
structure reply where
  content : Str
  content_type : Str
  headers : List (Str × Str)
deriving DecidableEq

/-- The call `rep.set_content(data, contentType)`. -/
def reply.set_content (rep : reply) (data contentType : Str) : reply :=
  { rep with content := data, content_type := contentType }

/-- The call `rep.set_header(name, value)`: the value of an existing header of
that name is replaced, otherwise the header is added. -/
def reply.set_header (rep : reply) (name value : Str) : reply :=
  if rep.headers.any (fun h => h.1 == name) then
    { rep with headers := rep.headers.map (fun h => if h.1 == name then (h.1, value) else h) }
  else { rep with headers := rep.headers ++ [(name, value)] }

/-- The value `"attachement; filename=\"%1%\""` formatted with a file name. -/
def attachment (file : Str) : Str :=
  "attachement; filename=\"".toList ++ file ++ ['"']

/-! ## hssp_server::handle_request -/

/-- What `handle_request` takes from outside `hsspsoap.cpp`: the two resources
of `mrsrc`, `zeep::http::decode_url`, the three virtual methods of the server (the
strategy, different in `hssp_server` and `hssp2_server`) and the handler of the
base class `zeep::server`. -/
structure hssp_server where
  index_html : Str
  error_html : Str
  decode_url : Str → Str
  GetDSSPForPDBFile : Str → Outcome Str
  GetHSSPForPDBFile : Str → Outcome Str
  GetHSSPForSequence : Str → Outcome Str
  base_handle_request : request → reply → reply

/-- Lines 207-219: the scheme and host are stripped, then the leading slashes. -/
def normalise_uri (uri : Str) : Str :=
  let uri1 :=
    if starts_with uri "http://".toList then
      match find_first_of uri '/' 7 with
      | some s => uri.drop s
      | none => uri
    else uri
  uri1.dropWhile (fun c => c == '/')

/-- The message of the `THROW` of the `SEQ2HSSP` branch. -/
def kMissingSequence : Str := "Missing sequence parameters".toList

/-- The `try` block (lines 223-279) on the normalised `uri`: the reply and the
flag `handled`, or the exception thrown. -/
def handle_request_try (fuel : Nat) (srv : hssp_server) (req : request) (uri : Str)
    (rep : reply) : Option (Outcome (reply × Bool)) :=
  if req.method == "GET".toList && (uri.isEmpty || starts_with uri "index.htm".toList) then
    some (.returned (rep.set_content srv.index_html "text/html".toList, true))
  else if req.method == "POST".toList then
    if starts_with uri "PDB2DSSP".toList || starts_with uri "PDB2HSSP".toList then
      match GetPDBFileFromPayload fuel req.payload [] [] with
      | none => none
      | some (.thrown e) => some (.thrown e)
      | some (.returned (pdb, file0)) =>
        let file :=
          if file0.isEmpty && decide (pdb.length > 66) then
            (pdb.drop 62).take 4 ++ ".pdb".toList
          else file0
        if starts_with uri "PDB2DSSP".toList then
          match srv.GetDSSPForPDBFile pdb with
          | .thrown e => some (.thrown e)
          | .returned result =>
            some (.returned ((rep.set_content result "text/plain".toList).set_header
              "Content-disposition".toList
              (attachment (replace_extension file ".dssp".toList)), true))
        else
          match srv.GetHSSPForPDBFile pdb with
          | .thrown e => some (.thrown e)
          | .returned result =>
            some (.returned ((rep.set_content result "text/plain".toList).set_header
              "Content-disposition".toList
              (attachment (replace_extension file ".hssp".toList)), true))
    else if starts_with uri "SEQ2HSSP".toList then
      match find req.payload "seq=".toList with
      | none => some (.thrown kMissingSequence)
      | some p =>
        match srv.GetHSSPForSequence (srv.decode_url (req.payload.drop (p + 4))) with
        | .thrown e => some (.thrown e)
        | .returned result =>
          some (.returned ((rep.set_content result "text/plain".toList).set_header
            "Content-disposition".toList (attachment "hssp-for-sequence".toList), true))
    else some (.returned (rep, false))
  else some (.returned (rep, false))

/-- The `try` block with its `catch` (lines 221-290): the reply and the flag
`handled` before the final test. -/
def handle_request_catch (fuel : Nat) (srv : hssp_server) (req : request) (rep : reply) :
    Option (reply × Bool) :=
  match handle_request_try fuel srv req (normalise_uri req.uri) rep with
  | none => none
  | some (.thrown what) =>
    some (rep.set_content (replace_first srv.error_html "#ERRSTR".toList what)
      "text/html".toList, true)
  | some (.returned r) => some r

/-- The method `hssp_server::handle_request(req, rep)`: the final value of
`rep`. -/
def handle_request (fuel : Nat) (srv : hssp_server) (req : request) (rep : reply) :
    Option reply :=
  match handle_request_catch fuel srv req rep with
  | none => none
  | some (rep1, handled) =>
    some (if !handled then srv.base_handle_request req rep1 else rep1)

/-! ## Requests, failures and a server to evaluate on -/

/-- The value of the reply header `name`, if the reply has one. -/
def reply.header (rep : reply) (name : Str) : Option Str :=
  (rep.headers.find? (fun h => h.1 == name)).map (fun h => h.2)

/-- The failures that can be raised while a request is handled, with the
message of the exception: the decoder throws, the `seq=` parameter is missing,
or one of the three calls of the strategy throws. -/
inductive Raised (fuel : Nat) (srv : hssp_server) (req : request) : Str → Prop
  | decode (what : Str) (hm : req.method = "POST".toList)
      (hr : starts_with (normalise_uri req.uri) "PDB2DSSP".toList = true ∨
        starts_with (normalise_uri req.uri) "PDB2HSSP".toList = true)
      (hd : GetPDBFileFromPayload fuel req.payload [] [] = some (.thrown what)) :
      Raised fuel srv req what
  | assign (pdb file what : Str) (hm : req.method = "POST".toList)
      (hr : starts_with (normalise_uri req.uri) "PDB2DSSP".toList = true)
      (hd : GetPDBFileFromPayload fuel req.payload [] [] = some (.returned (pdb, file)))
      (hs : srv.GetDSSPForPDBFile pdb = .thrown what) : Raised fuel srv req what
  | align (pdb file what : Str) (hm : req.method = "POST".toList)
      (hn : starts_with (normalise_uri req.uri) "PDB2DSSP".toList = false)
      (hr : starts_with (normalise_uri req.uri) "PDB2HSSP".toList = true)
      (hd : GetPDBFileFromPayload fuel req.payload [] [] = some (.returned (pdb, file)))
      (hs : srv.GetHSSPForPDBFile pdb = .thrown what) : Raised fuel srv req what
  | missing (hm : req.method = "POST".toList)
      (hr : starts_with (normalise_uri req.uri) "SEQ2HSSP".toList = true)
      (hf : find req.payload "seq=".toList = none) : Raised fuel srv req kMissingSequence
  | alignSeq (p : Nat) (what : Str) (hm : req.method = "POST".toList)
      (hr : starts_with (normalise_uri req.uri) "SEQ2HSSP".toList = true)
      (hf : find req.payload "seq=".toList = some p)
      (hs : srv.GetHSSPForSequence (srv.decode_url (req.payload.drop (p + 4))) = .thrown what) :
      Raised fuel srv req what

/-- The value of a hexadecimal digit. -/
def hexDigit (c : Char) : Option Nat :=
  if c.isDigit then some (c.toNat - '0'.toNat)
  else if 'a'.toNat ≤ c.toNat ∧ c.toNat ≤ 'f'.toNat then some (c.toNat - 'a'.toNat + 10)
  else if 'A'.toNat ≤ c.toNat ∧ c.toNat ≤ 'F'.toNat then some (c.toNat - 'A'.toNat + 10)
  else none

/-- Modelled from the spec: `zeep::http::decode_url` is not in src/; the spec
says that the sequence is URL-decoded (`%20` becomes a space).  A percent sign
followed by two hexadecimal digits is replaced by the character of that code,
every other character is kept. -/
def percent_decode : Str → Str
  | [] => []
  | [c] => [c]
  | [c, a] => c :: percent_decode [a]
  | c :: a :: d :: u =>
    if c = '%' then
      match hexDigit a, hexDigit d with
      | some x, some y => Char.ofNat (16 * x + y) :: percent_decode u
      | _, _ => c :: percent_decode (a :: d :: u)
    else c :: percent_decode (a :: d :: u)

/-- A server to evaluate the router on: its strategy returns the input behind
a tag, except that an empty structure is an error; its default handler writes
the URI it is given into the reply. -/
def demoServer : hssp_server where
  index_html := "<html>index</html>".toList
  error_html := "<html><p>#ERRSTR</p></html>".toList
  decode_url := percent_decode
  GetDSSPForPDBFile := fun s =>
    if s.isEmpty then .thrown "no atoms".toList else .returned ("DSSP ".toList ++ s)
  GetHSSPForPDBFile := fun s =>
    if s.isEmpty then .thrown "no atoms".toList else .returned ("HSSP ".toList ++ s)
  GetHSSPForSequence := fun s => .returned ("HSSP ".toList ++ s)
  base_handle_request := fun req rep => rep.set_content ("default ".toList ++ req.uri) []

/-- An empty reply. -/
def emptyReply : reply := ⟨[], [], []⟩

/-- A structure text whose `HEADER` line has the identifier `1ABC` at the
offsets 62 to 65. -/
def pdbText : Str :=
  "HEADER    HYDROLASE                               01-JAN-00   1ABC              \n".toList

/-- A payload whose part named `pdb` holds `pdbText` and declares no
filename. -/
def payloadHeader : Str :=
  "--B\r\nContent-Disposition: form-data; name=\"pdb\"\r\n\r\n".toList ++ pdbText ++
    "--B--\r\n".toList

/-! ## Payloads as sequences of parts -/

/-- Lines written out, each followed by a line feed. -/
def unlines : List Str → Str
  | [] => []
  | l :: ls => l ++ '\n' :: unlines ls

/-- One part of a payload: its header lines, its body lines and the line that
closes it. -/
structure Part where
  headers : List Str
  body : List Str
  close : Str
deriving DecidableEq

/-- The text of a part followed by `rest`: the header lines, a blank line, the
body lines, the closing line, then `rest`. -/
def Part.render (p : Part) (rest : Str) : Str :=
  unlines p.headers ++ '\n' :: (unlines p.body ++ (p.close ++ rest))

/-- The text of consecutive parts, each closing line ended by a line feed,
followed by `rest`. -/
def renderParts : List Part → Str → Str
  | [], rest => rest
  | p :: ps, rest => p.render ('\n' :: renderParts ps rest)

/-- A part of a payload with boundary `b`: the header lines are non-empty, no
body line starts with `b`, the closing line does, and no line holds a line
feed. -/
def Part.wf (b : Str) (p : Part) : Prop :=
  (∀ h ∈ p.headers, '\n' ∉ h ∧ h ≠ []) ∧
  (∀ l ∈ p.body, '\n' ∉ l ∧ starts_with l b = false) ∧
  '\n' ∉ p.close ∧ starts_with p.close b = true

instance (b : Str) (p : Part) : Decidable (p.wf b) := by
  unfold Part.wf; infer_instance

/-- The test of line 145 on a closing line: the boundary is followed by `--`. -/
def terminal (b line : Str) : Bool := (line.drop b.length).take 2 == "--".toList

/-- The current name after the header lines `hs` have been read. -/
def scanName (name : Str) : List Str → Str
  | [] => name
  | h :: hs => scanName (if starts_with h kContentDisposition then nameOf h else name) hs

/-- The current filename after the header lines `hs` have been read. -/
def scanFile (file : Str) : List Str → Str
  | [] => file
  | h :: hs => scanFile (if starts_with h kContentDisposition then fileOf h file else file) hs

/-- What `pdb` is after a body has been read under the current name. -/
def capture (name pdb : Str) (body : List Str) : Str :=
  if isTarget name then pdb ++ unlines body else pdb

/-- What may follow a closing line `c`: a line feed and anything, or the end of
the payload when `c` is not empty. -/
def tailOK (c tail : Str) : Bool :=
  match tail with
  | [] => !c.isEmpty
  | d :: _ => d == '\n'

/-- The test made after a body closed by the line `c` (lines 142 and 145): the
decoder stops. -/
def stops (b name pdb c : Str) : Bool :=
  (isTarget name && decide (pdb.length > 2)) || terminal b c

/-- The current names after the headers of each of the parts, read in turn. -/
def namesAfter (name : Str) : List Part → List Str
  | [] => []
  | p :: ps => scanName name p.headers :: namesAfter (scanName name p.headers) ps

/-- The current name after the parts have been read. -/
def nameAfter (name : Str) : List Part → Str
  | [] => name
  | p :: ps => nameAfter (scanName name p.headers) ps

/-- The current filename after the parts have been read. -/
def fileAfter (file : Str) : List Part → Str
  | [] => file
  | p :: ps => fileAfter (scanFile file p.headers) ps

/-- The test of line 102 on a header line. -/
def isCD (h : Str) : Bool := starts_with h kContentDisposition

/-- What follows a part named `pdb` with the given body, closing line and rest
of the payload lets the decoder end with that body: it stops at the closing line
(the captured text is longer than 2 characters, or the line is terminal), or
the rest is made of parts that leave a current name other than `pdb` and
`pdbfile`, the last one closed by a terminal line. -/
def Remainder (b : Str) (body : List Str) (close tail : Str) : Prop :=
  (tailOK close tail = true ∧ (2 < (unlines body).length ∨ terminal b close = true)) ∨
  ∃ init last tail1, tail = '\n' :: renderParts init (Part.render last tail1) ∧
    (∀ p ∈ init ++ [last], p.wf b) ∧
    (∀ n ∈ namesAfter "pdb".toList (init ++ [last]), isTarget n = false) ∧
    terminal b last.close = true ∧ tailOK last.close tail1 = true

/-- A payload with a part named `pdbfile` before the part named `pdb`. -/
def payloadTwoTargets : Str :=
  ("B\nContent-Disposition: form-data; name=\"pdbfile\"\n\nAAAA\nB\n" ++
   "Content-Disposition: form-data; name=\"pdb\"\n\nCCCC\nB--\n").toList

/-- A payload with one part named `pdb`, sent with CR LF line ends, the
`Content-Disposition` line first. -/
def payloadPdbFirst : Str :=
  ("--B\r\nContent-Disposition: form-data; name=\"pdb\"; filename=\"1abc.pdb\"\r\n" ++
   "Content-Type: text/plain\r\n\r\nATOM 1\r\nATOM 2\r\n--B--\r\n").toList

/-- The payload `payloadPdbFirst` with the two header lines and the two
parameters swapped. -/
def payloadPdbSwapped : Str :=
  ("--B\r\nContent-Type: text/plain\r\n" ++
   "Content-Disposition: form-data; filename=\"1abc.pdb\"; name=\"pdb\"\r\n" ++
   "\r\nATOM 1\r\nATOM 2\r\n--B--\r\n").toList

/-- A well-formed payload with the parts `seq` and `comment` only. -/
def payloadNoTarget : Str :=
  ("--B\r\nContent-Disposition: form-data; name=\"seq\"\r\n\r\nACDE\r\n--B\r\n" ++
   "Content-Disposition: form-data; name=\"comment\"\r\n\r\nnone\r\n--B--").toList

/-- A payload cut in the middle of a body line: the last line has no line
end. -/
def payloadTruncated : Str :=
  "--B\r\nContent-Disposition: form-data; name=\"seq\"\r\n\r\nACDE".toList

/-- A payload whose part named `pdb` is empty and is followed by a part that
has no `Content-Disposition` line. -/
def payloadStaleName : Str :=
  ("--B\nContent-Disposition: form-data; name=\"pdb\"\n\n--B\n" ++
   "Content-Type: text/plain\n\nSECRET\n--B--\n").toList

/-- A payload whose first part declares a filename and whose part named `pdb`
declares none. -/
def payloadForeignFilename : Str :=
  ("--B\nContent-Disposition: form-data; name=\"notes\"; filename=\"notes.txt\"\n\n" ++
   "hello\n--B\nContent-Disposition: form-data; name=\"pdb\"\n\nATOM 1\n--B--\n").toList

/-- The loop `readParts` giving, besides its result, the header lines it has
read (the non-empty lines read at line 95), in the order read. -/
def readPartsTrace : Nat → istream → Str → Str → Str → Str →
    Option (Outcome (Str × Str) × List Str)
  | 0, _, _, _, _, _ => none
  | fuel + 1, s, boundary, name, file, pdb =>
    let r := getline s []
    if r.2.isEmpty && r.1.eof then some (.thrown kUnexpectedEOF, [])
    else if starts_with r.2 kContentDisposition then
      (readPartsTrace fuel r.1 boundary (nameOf r.2) (fileOf r.2 file) pdb).map
        (fun x => (x.1, r.2 :: x.2))
    else if !r.2.isEmpty then
      (readPartsTrace fuel r.1 boundary name file pdb).map (fun x => (x.1, r.2 :: x.2))
    else
      match readBody fuel r.1 boundary name r.2 pdb with
      | none => none
      | some (.thrown e) => some (.thrown e, [])
      | some (.returned (s1, line, pdb1)) =>
        if isTarget name && decide (pdb1.length > 2) then some (.returned (pdb1, file), [])
        else if (line.drop boundary.length).take 2 == "--".toList then
          some (.returned (pdb1, file), [])
        else readPartsTrace fuel s1 boundary name file pdb1

/-- The function `GetPDBFileFromPayload` giving, besides its result, the header
lines it has read. -/
def GetPDBFileFromPayloadTrace (fuel : Nat) (payload pdb file : Str) :
    Option (Outcome (Str × Str) × List Str) :=
  let r := getline ⟨newline_filter payload, false, false⟩ []
  readPartsTrace fuel r.1 r.2 [] file pdb

/-- The filename that a header line carries: the value that `fre` finds in a
`Content-Disposition: form-data` line. -/
def carriedFilename (h : Str) : Option Str := if isCD h then fre h else none

/-- The filename carried by the last of the lines that carries one, `file` when
none does. -/
def lastFilename (file : Str) (scanned : List Str) : Str :=
  ((scanned.filterMap carriedFilename).getLast?).getD file

/-- The payload `payloadStaleName` with a nameless `Content-Disposition` line in
its second part. -/
def payloadUndefName : Str :=
  ("--B\nContent-Disposition: form-data; name=\"pdb\"\n\n--B\n" ++
   "Content-Disposition: form-data\n\nSECRET\n--B--\n").toList

/-- The text `pdb` after the parts have been read. -/
def pdbAfter (name pdb : Str) : List Part → Str
  | [] => pdb
  | p :: ps =>
    pdbAfter (scanName name p.headers) (capture (scanName name p.headers) pdb p.body) ps

/-- The decoder reads the parts through: each is a part of a payload with
boundary `b`, and the decoder does not stop at its closing line. -/
def passes (b name pdb : Str) : List Part → Bool
  | [] => true
  | p :: ps =>
    decide (p.wf b) &&
    !stops b (scanName name p.headers) (capture (scanName name p.headers) pdb p.body) p.close &&
    passes b (scanName name p.headers) (capture (scanName name p.headers) pdb p.body) ps

/-- A payload prefix that ends with the line closing a part named `pdb`, with
no line end after it. -/
def prefixStopped : Str :=
  ("--B\r\nContent-Disposition: form-data; name=\"pdb\"; filename=\"1abc.pdb\"\r\n\r\n" ++
   "ATOM 1\r\n--B").toList

/-- A continuation: the line end, then a part that declares another filename
and is cut inside its body. -/
def continuationCut : Str :=
  "\r\nContent-Disposition: form-data; name=\"x\"; filename=\"other.txt\"\r\n\r\ncut".toList

/-! ## Routes -/

/-- The routes of the router: a `GET` whose normalised path is empty or starts
with `index.htm`, or a `POST` whose normalised path starts with `PDB2DSSP`,
`PDB2HSSP` or `SEQ2HSSP`. -/
def routed (req : request) : Bool :=
  (req.method == "GET".toList &&
    ((normalise_uri req.uri).isEmpty || starts_with (normalise_uri req.uri) "index.htm".toList)) ||
  (req.method == "POST".toList &&
    (starts_with (normalise_uri req.uri) "PDB2DSSP".toList ||
      starts_with (normalise_uri req.uri) "PDB2HSSP".toList ||
      starts_with (normalise_uri req.uri) "SEQ2HSSP".toList))

/-! ## Daemonize -/

/-- The outcomes of the system calls of `Daemonize`, as seen by the process
that goes on after each `fork`: the values returned by the two `fork`, by
`setsid`, `chdir` and `setuid`, the user id found by `getpwnam` (`none` for
`NULL`), and the text of `strerror(errno)`. -/
structure SysCalls where
  fork1 : Int
  setsid : Int
  fork2 : Int
  chdir : Int
  getpwnam : Option Nat
  setuid : Int
  strerror : Str
deriving DecidableEq

/-- How `Daemonize` ends: the process exits (`exit` or `_exit`) with a code, or
the function returns to `main`, which goes on to bind and serve. -/
inductive DaemonEnd where
  | exited (code : Nat)
  | returned
deriving DecidableEq

/-- What `Daemonize` does: the lines written to `cerr` and how it ends. -/
structure DaemonResult where
  cerr : List Str
  outcome : DaemonEnd
deriving DecidableEq

/-- The function `Daemonize(inUser)` (lines 414-470) on the outcomes of its
system calls. -/
def Daemonize (sys : SysCalls) (inUser : Str) : DaemonResult :=
  if sys.fork1 = -1 then ⟨["Fork failed".toList], .exited 1⟩
  else if sys.fork1 ≠ 0 then ⟨[], .exited 0⟩
  else if sys.setsid < 0 then
    ⟨["Failed to create process group: ".toList ++ sys.strerror], .exited 1⟩
  else
    let err : List Str := if sys.fork2 = -1 then ["Fork failed".toList] else []
    if sys.fork2 ≠ 0 then ⟨err, .exited 0⟩
    else if sys.chdir ≠ 0 then
      ⟨err ++ ["Cannot chdir to /: ".toList ++ sys.strerror], .exited 1⟩
    else if inUser.length > 0 then
      match sys.getpwnam with
      | none =>
        ⟨err ++ ["Failed to set uid to ".toList ++ inUser ++ ": ".toList ++ sys.strerror],
          .exited 1⟩
      | some _ =>
        if sys.setuid < 0 then
          ⟨err ++ ["Failed to set uid to ".toList ++ inUser ++ ": ".toList ++ sys.strerror],
            .exited 1⟩
        else ⟨err, .returned⟩
    else ⟨err, .returned⟩

/-! ## Reading lines -/

theorem extractLine_line (l rest : Str) (hl : '\n' ∉ l) :
    extractLine (l ++ '\n' :: rest) = (l, some rest) := by
  induction l with
  | nil => simp [extractLine]
  | cons c t ih =>
    have hc : c ≠ '\n' := fun h => hl (by simp [h])
    have ht : '\n' ∉ t := fun h => hl (by simp [h])
    simp [extractLine, hc, ih ht]

theorem extractLine_last (l : Str) (hl : '\n' ∉ l) : extractLine l = (l, none) := by
  induction l with
  | nil => simp [extractLine]
  | cons c t ih =>
    have hc : c ≠ '\n' := fun h => hl (by simp [h])
    have ht : '\n' ∉ t := fun h => hl (by simp [h])
    simp [extractLine, hc, ih ht]

theorem getline_line (l rest str : Str) (hl : '\n' ∉ l) :
    getline ⟨l ++ '\n' :: rest, false, false⟩ str = (⟨rest, false, false⟩, l) := by
  simp [getline, istream.good, extractLine_line l rest hl]

theorem getline_last (l str : Str) (hl : '\n' ∉ l) :
    getline ⟨l, false, false⟩ str = (⟨[], true, l.isEmpty⟩, l) := by
  simp [getline, istream.good, extractLine_last l hl]

theorem getline_eof (s : istream) (str : Str) (h : s.eofbit = true) :
    getline s str = ({ s with failbit := true }, str) := by
  simp [getline, istream.good, h]

/-! ## More fuel never changes a result -/

theorem readBody_mono {n m : Nat} (h : n ≤ m) {s : istream} {b name line pdb : Str}
    {r : Outcome (istream × Str × Str)} :
    readBody n s b name line pdb = some r → readBody m s b name line pdb = some r := by
  induction n generalizing m s line pdb with
  | zero => intro h0; simp [readBody] at h0
  | succ n ih =>
    intro h1
    obtain ⟨k, rfl⟩ : ∃ k, m = k + 1 := ⟨m - 1, by omega⟩
    have hk : n ≤ k := by omega
    simp only [readBody] at h1 ⊢
    split_ifs at h1 ⊢ with c1 c2 c3
    · exact h1
    · exact h1
    · exact ih hk h1
    · exact ih hk h1

theorem readParts_mono {n m : Nat} (h : n ≤ m) {s : istream} {b name file pdb : Str}
    {r : Outcome (Str × Str)} :
    readParts n s b name file pdb = some r → readParts m s b name file pdb = some r := by
  induction n generalizing m s name file pdb with
  | zero => intro h0; simp [readParts] at h0
  | succ n ih =>
    intro h1
    obtain ⟨k, rfl⟩ : ∃ k, m = k + 1 := ⟨m - 1, by omega⟩
    have hk : n ≤ k := by omega
    simp only [readParts] at h1 ⊢
    split_ifs at h1 ⊢ with c1 c2 c3
    · exact h1
    · exact ih hk h1
    · exact ih hk h1
    · cases hb : readBody n (getline s []).1 b name (getline s []).2 pdb with
      | none => simp [hb] at h1
      | some o =>
        rw [readBody_mono hk hb]
        rw [hb] at h1
        cases o with
        | thrown e => exact h1
        | returned a =>
          obtain ⟨s1, line, pdb1⟩ := a
          simp only at h1 ⊢
          split_ifs at h1 ⊢ with d1 d2
          · exact h1
          · exact h1
          · exact ih hk h1

theorem GetPDBFileFromPayload_mono {n m : Nat} (h : n ≤ m) {payload pdb file : Str}
    {r : Outcome (Str × Str)} :
    GetPDBFileFromPayload n payload pdb file = some r →
      GetPDBFileFromPayload m payload pdb file = some r :=
  readParts_mono h

/-! ## Reading a part -/

theorem readParts_headers (fuel : Nat) (hs : List Str) (rest b name file pdb : Str)
    (hh : ∀ h ∈ hs, '\n' ∉ h ∧ h ≠ []) :
    readParts (fuel + hs.length) ⟨unlines hs ++ rest, false, false⟩ b name file pdb =
      readParts fuel ⟨rest, false, false⟩ b (scanName name hs) (scanFile file hs) pdb := by
  induction hs generalizing name file with
  | nil => simp [unlines, scanName, scanFile]
  | cons h hs ih =>
    have h1 := (hh h (by simp)).1
    have h2 : h.isEmpty = false := by
      have := (hh h (by simp)).2
      cases h with
      | nil => exact absurd rfl this
      | cons _ _ => rfl
    have ih2 := fun name file => ih name file (fun x hx => hh x (by simp [hx]))
    have e : unlines (h :: hs) ++ rest = h ++ '\n' :: (unlines hs ++ rest) := by
      simp [unlines]
    rw [e, List.length_cons, ← Nat.add_assoc]
    rw [readParts]
    simp only [getline_line h _ [] h1, h2, Bool.false_and, Bool.false_eq_true, if_false,
      Bool.not_false, if_true]
    by_cases c : starts_with h kContentDisposition = true
    · simp only [c, if_true, ih2, scanName, scanFile]
    · simp [c, ih2, scanName, scanFile]

theorem readBody_lines (fuel : Nat) (ls : List Str) (c rest b name line pdb : Str)
    (hl : ∀ l ∈ ls, '\n' ∉ l ∧ starts_with l b = false)
    (hc : '\n' ∉ c) (hb : starts_with c b = true) :
    readBody (fuel + ls.length + 1) ⟨unlines ls ++ (c ++ '\n' :: rest), false, false⟩ b name line pdb =
      some (.returned (⟨rest, false, false⟩, c, capture name pdb ls)) := by
  induction ls generalizing line pdb with
  | nil =>
    rw [readBody]
    simp [unlines, getline_line c rest line hc, istream.eof, hb, capture]
  | cons l ls ih =>
    have h1 := (hl l (by simp)).1
    have h2 := (hl l (by simp)).2
    have ih2 := fun line pdb => ih line pdb (fun x hx => hl x (by simp [hx]))
    have e : unlines (l :: ls) ++ (c ++ '\n' :: rest) =
        l ++ '\n' :: (unlines ls ++ (c ++ '\n' :: rest)) := by simp [unlines]
    have f : fuel + (l :: ls).length + 1 = (fuel + ls.length + 1) + 1 := by
      simp [List.length_cons]; omega
    rw [e, f, readBody]
    simp only [getline_line l _ line h1, istream.eof, Bool.and_false, Bool.false_eq_true,
      if_false, h2, ih2]
    by_cases t : isTarget name = true
    · simp [t, capture, unlines]
    · simp [t, capture]

theorem readBody_last (fuel : Nat) (ls : List Str) (c b name line pdb : Str)
    (hl : ∀ l ∈ ls, '\n' ∉ l ∧ starts_with l b = false)
    (hc : '\n' ∉ c) (hb : starts_with c b = true) (hne : c ≠ []) :
    readBody (fuel + ls.length + 1) ⟨unlines ls ++ c, false, false⟩ b name line pdb =
      some (.returned (⟨[], true, false⟩, c, capture name pdb ls)) := by
  have hce : c.isEmpty = false := by
    cases c with
    | nil => exact absurd rfl hne
    | cons _ _ => rfl
  induction ls generalizing line pdb with
  | nil =>
    rw [readBody]
    simp [unlines, getline_last c line hc, istream.eof, hb, capture, hce]
  | cons l ls ih =>
    have h1 := (hl l (by simp)).1
    have h2 := (hl l (by simp)).2
    have ih2 := fun line pdb => ih line pdb (fun x hx => hl x (by simp [hx]))
    have e : unlines (l :: ls) ++ c = l ++ '\n' :: (unlines ls ++ c) := by simp [unlines]
    have f : fuel + (l :: ls).length + 1 = (fuel + ls.length + 1) + 1 := by
      simp [List.length_cons]; omega
    rw [e, f, readBody]
    simp only [getline_line l _ line h1, istream.eof, Bool.and_false, Bool.false_eq_true,
      if_false, h2, ih2]
    by_cases t : isTarget name = true
    · simp [t, capture, unlines]
    · simp [t, capture]

theorem readParts_blank (fuel : Nat) (ls : List Str) (c rest b name file pdb : Str)
    (hl : ∀ l ∈ ls, '\n' ∉ l ∧ starts_with l b = false)
    (hc : '\n' ∉ c) (hb : starts_with c b = true) (hf : ls.length + 1 ≤ fuel) :
    readParts (fuel + 1) ⟨'\n' :: (unlines ls ++ (c ++ '\n' :: rest)), false, false⟩ b name file pdb =
      if stops b name (capture name pdb ls) c then
        some (.returned (capture name pdb ls, file))
      else readParts fuel ⟨rest, false, false⟩ b name file (capture name pdb ls) := by
  obtain ⟨k, rfl⟩ : ∃ k, fuel = k + ls.length + 1 := ⟨fuel - (ls.length + 1), by omega⟩
  have g := getline_line [] (unlines ls ++ (c ++ '\n' :: rest)) [] (by simp)
  simp only [List.nil_append] at g
  rw [readParts]
  simp only [g, readBody_lines k ls c rest b name [] pdb hl hc hb]
  simp only [stops, terminal]
  have k0 : starts_with [] kContentDisposition = false := by decide
  simp only [k0, List.isEmpty_nil, istream.eof, Bool.and_false, Bool.false_eq_true, if_false,
    Bool.not_true]
  by_cases t1 : (isTarget name && decide ((capture name pdb ls).length > 2)) = true
  · simp [t1]
  · by_cases t2 : (List.take 2 (List.drop b.length c) == "--".toList) = true
    · simp [t1, t2]
    · simp [t1, t2]

theorem readParts_blank_last (fuel : Nat) (ls : List Str) (c b name file pdb : Str)
    (hl : ∀ l ∈ ls, '\n' ∉ l ∧ starts_with l b = false)
    (hc : '\n' ∉ c) (hb : starts_with c b = true) (hne : c ≠ [])
    (hs : stops b name (capture name pdb ls) c = true) (hf : ls.length + 1 ≤ fuel) :
    readParts (fuel + 1) ⟨'\n' :: (unlines ls ++ c), false, false⟩ b name file pdb =
      some (.returned (capture name pdb ls, file)) := by
  obtain ⟨k, rfl⟩ : ∃ k, fuel = k + ls.length + 1 := ⟨fuel - (ls.length + 1), by omega⟩
  have g := getline_line [] (unlines ls ++ c) [] (by simp)
  simp only [List.nil_append] at g
  rw [readParts]
  simp only [g, readBody_last k ls c b name [] pdb hl hc hb hne]
  simp only [stops, terminal] at hs
  have k0 : starts_with [] kContentDisposition = false := by decide
  simp only [k0, List.isEmpty_nil, istream.eof, Bool.and_false, Bool.false_eq_true, if_false,
    Bool.not_true]
  by_cases t1 : (isTarget name && decide ((capture name pdb ls).length > 2)) = true
  · simp [t1]
  · simp only [t1, Bool.false_or] at hs
    simp only [t1, hs, Bool.false_eq_true, if_false, if_true]

/-- A part at which the decoder does not stop is read through. -/
theorem part_step (p : Part) (rest b name file pdb : Str) (hp : p.wf b)
    (hs : stops b (scanName name p.headers) (capture (scanName name p.headers) pdb p.body)
      p.close = false)
    {r : Outcome (Str × Str)} {n : Nat}
    (h : readParts n ⟨rest, false, false⟩ b (scanName name p.headers) (scanFile file p.headers)
      (capture (scanName name p.headers) pdb p.body) = some r) :
    ∃ m, readParts m ⟨p.render ('\n' :: rest), false, false⟩ b name file pdb = some r := by
  obtain ⟨hh, hl, hc, hb⟩ := hp
  refine ⟨(n + p.body.length + 1) + 1 + p.headers.length, ?_⟩
  rw [Part.render, readParts_headers _ _ _ _ _ _ _ hh,
    readParts_blank _ _ _ _ _ _ _ _ hl hc hb (by omega), hs]
  simp only [Bool.false_eq_true, if_false]
  exact readParts_mono (by omega) h

/-- A part at which the decoder stops ends the decoding. -/
theorem part_stop (p : Part) (tail b name file pdb : Str) (hp : p.wf b)
    (ht : tailOK p.close tail = true)
    (hs : stops b (scanName name p.headers) (capture (scanName name p.headers) pdb p.body)
      p.close = true) :
    ∃ m, readParts m ⟨p.render tail, false, false⟩ b name file pdb =
      some (.returned (capture (scanName name p.headers) pdb p.body, scanFile file p.headers)) := by
  obtain ⟨hh, hl, hc, hb⟩ := hp
  refine ⟨(p.body.length + 1) + 1 + p.headers.length, ?_⟩
  cases tail with
  | nil =>
    have hne : p.close ≠ [] := by
      intro e
      simp [tailOK, e] at ht
    rw [Part.render, readParts_headers _ _ _ _ _ _ _ hh, List.append_nil,
      readParts_blank_last _ _ _ _ _ _ _ hl hc hb hne hs (by omega)]
  | cons d rest =>
    have hd : d = '\n' := by simpa [tailOK] using ht
    subst hd
    rw [Part.render, readParts_headers _ _ _ _ _ _ _ hh,
      readParts_blank _ _ _ _ _ _ _ _ hl hc hb (by omega), hs]
    simp

/-! ## Reading several parts -/

theorem capture_of_not_target (name pdb : Str) (body : List Str) (h : isTarget name = false) :
    capture name pdb body = pdb := by
  simp [capture, h]

theorem stops_of_not_target (b name pdb c : Str) (h : isTarget name = false) :
    stops b name pdb c = terminal b c := by
  simp [stops, h]

/-- Parts that are neither captured nor terminal are read through, `pdb`
unchanged. -/
theorem skip_parts (ps : List Part) (rest b name file pdb : Str)
    (hw : ∀ p ∈ ps, p.wf b ∧ terminal b p.close = false)
    (hn : ∀ n ∈ namesAfter name ps, isTarget n = false)
    {r : Outcome (Str × Str)} {n : Nat}
    (h : readParts n ⟨rest, false, false⟩ b (nameAfter name ps) (fileAfter file ps) pdb = some r) :
    ∃ m, readParts m ⟨renderParts ps rest, false, false⟩ b name file pdb = some r := by
  induction ps generalizing name file with
  | nil => exact ⟨n, h⟩
  | cons p ps ih =>
    have hp := hw p (by simp)
    have hnt : isTarget (scanName name p.headers) = false := hn _ (by simp [namesAfter])
    obtain ⟨m, hm⟩ := ih (scanName name p.headers) (scanFile file p.headers)
      (fun q hq => hw q (by simp [hq])) (fun x hx => hn x (by simp [namesAfter, hx])) h
    rw [renderParts]
    exact part_step p _ b name file pdb hp.1
      (by rw [stops_of_not_target _ _ _ _ hnt]; exact hp.2)
      (by rw [capture_of_not_target _ _ _ hnt]; exact hm)

/-- Parts that are not captured, the last one closed by a terminal line, end
the decoding with `pdb` unchanged. -/
theorem discard_parts (init : List Part) (last : Part) (tail b name file pdb : Str)
    (hw : ∀ p ∈ init ++ [last], p.wf b)
    (hn : ∀ n ∈ namesAfter name (init ++ [last]), isTarget n = false)
    (ht : terminal b last.close = true) (hk : tailOK last.close tail = true) :
    ∃ m f, readParts m ⟨renderParts init (last.render tail), false, false⟩ b name file pdb =
      some (.returned (pdb, f)) := by
  induction init generalizing name file with
  | nil =>
    have hnt : isTarget (scanName name last.headers) = false := hn _ (by simp [namesAfter])
    obtain ⟨m, hm⟩ := part_stop last tail b name file pdb (hw last (by simp)) hk
      (by rw [stops_of_not_target _ _ _ _ hnt]; exact ht)
    rw [capture_of_not_target _ _ _ hnt] at hm
    exact ⟨m, _, hm⟩
  | cons p ps ih =>
    have hp := hw p (by simp)
    have hnt : isTarget (scanName name p.headers) = false := hn _ (by simp [namesAfter])
    rw [renderParts]
    by_cases hs : terminal b p.close = true
    · obtain ⟨m, hm⟩ := part_stop p ('\n' :: renderParts ps (last.render tail)) b name file pdb hp
        (by simp [tailOK]) (by rw [stops_of_not_target _ _ _ _ hnt]; exact hs)
      rw [capture_of_not_target _ _ _ hnt] at hm
      exact ⟨m, _, hm⟩
    · obtain ⟨m, f, hm⟩ := ih (scanName name p.headers) (scanFile file p.headers)
        (fun q hq => hw q (by simp at hq ⊢; tauto))
        (fun x hx => hn x (by simp [namesAfter] at hx ⊢; tauto))
      obtain ⟨k, hk2⟩ := part_step p _ b name file pdb hp
        (by rw [stops_of_not_target _ _ _ _ hnt]; simpa using hs)
        (by rw [capture_of_not_target _ _ _ hnt]; exact hm)
      exact ⟨k, f, hk2⟩

theorem scanName_not_target (name : Str) (hs : List Str) (h0 : isTarget name = false)
    (h : ∀ h ∈ hs, isCD h = true → isTarget (nameOf h) = false) :
    isTarget (scanName name hs) = false := by
  induction hs generalizing name with
  | nil => exact h0
  | cons x xs ih =>
    rw [scanName]
    apply ih _ _ (fun y hy => h y (by simp [hy]))
    by_cases c : starts_with x kContentDisposition = true
    · simp only [c, if_true]; exact h x (by simp) c
    · simp only [c, if_false]; exact h0

theorem namesAfter_not_target (name : Str) (ps : List Part) (h0 : isTarget name = false)
    (h : ∀ p ∈ ps, ∀ h ∈ p.headers, isCD h = true → isTarget (nameOf h) = false) :
    ∀ n ∈ namesAfter name ps, isTarget n = false := by
  induction ps generalizing name with
  | nil => intro n hn; simp [namesAfter] at hn
  | cons p ps ih =>
    have h1 := scanName_not_target name p.headers h0 (h p (by simp))
    intro n hn
    simp only [namesAfter, List.mem_cons] at hn
    rcases hn with rfl | hn
    · exact h1
    · exact ih _ h1 (fun q hq => h q (by simp [hq])) n hn

theorem GetPDBFileFromPayload_boundary (fuel : Nat) (payload b text pdb file : Str)
    (hb : '\n' ∉ b) (hp : newline_filter payload = b ++ '\n' :: text) :
    GetPDBFileFromPayload fuel payload pdb file =
      readParts fuel ⟨text, false, false⟩ b [] file pdb := by
  simp [GetPDBFileFromPayload, hp, getline_line b text [] hb]

theorem GetPDBFileFromPayload_unique {n m : Nat} {payload pdb file : Str}
    {r r' : Outcome (Str × Str)} (h : GetPDBFileFromPayload n payload pdb file = some r)
    (h' : GetPDBFileFromPayload m payload pdb file = some r') : r = r' := by
  have a := GetPDBFileFromPayload_mono (Nat.le_max_left n m) h
  have c := GetPDBFileFromPayload_mono (Nat.le_max_right n m) h'
  rw [a] at c
  exact Option.some.inj c

theorem scanName_no_cd (name : Str) (hs : List Str) (h : hs.filter isCD = []) :
    scanName name hs = name := by
  induction hs generalizing name with
  | nil => rfl
  | cons x xs ih =>
    by_cases c : isCD x = true
    · simp [List.filter, c] at h
    · have c' : starts_with x kContentDisposition = false := by simpa [isCD] using c
      simp only [List.filter, c] at h
      simp only [scanName, c', Bool.false_eq_true, if_false]
      exact ih name h

theorem scanFile_no_cd (file : Str) (hs : List Str) (h : hs.filter isCD = []) :
    scanFile file hs = file := by
  induction hs generalizing file with
  | nil => rfl
  | cons x xs ih =>
    by_cases c : isCD x = true
    · simp [List.filter, c] at h
    · have c' : starts_with x kContentDisposition = false := by simpa [isCD] using c
      simp only [List.filter, c] at h
      simp only [scanFile, c', Bool.false_eq_true, if_false]
      exact ih file h

theorem scanName_single (name cd : Str) (hs : List Str) (h : hs.filter isCD = [cd]) :
    scanName name hs = nameOf cd := by
  induction hs generalizing name with
  | nil => simp at h
  | cons x xs ih =>
    by_cases c : isCD x = true
    · have c' : starts_with x kContentDisposition = true := by simpa [isCD] using c
      simp only [List.filter, c, List.cons.injEq] at h
      simp only [scanName, c', if_true]
      rw [scanName_no_cd _ _ h.2, h.1]
    · have c' : starts_with x kContentDisposition = false := by simpa [isCD] using c
      simp only [List.filter, c] at h
      simp only [scanName, c', Bool.false_eq_true, if_false]
      exact ih name h

theorem scanFile_single (file cd : Str) (hs : List Str) (h : hs.filter isCD = [cd]) :
    scanFile file hs = fileOf cd file := by
  induction hs generalizing file with
  | nil => simp at h
  | cons x xs ih =>
    by_cases c : isCD x = true
    · have c' : starts_with x kContentDisposition = true := by simpa [isCD] using c
      simp only [List.filter, c, List.cons.injEq] at h
      simp only [scanFile, c', if_true]
      rw [scanFile_no_cd _ _ h.2, h.1]
    · have c' : starts_with x kContentDisposition = false := by simpa [isCD] using c
      simp only [List.filter, c] at h
      simp only [scanFile, c', Bool.false_eq_true, if_false]
      exact ih file h

/-- A part named `pdb`, read with nothing captured yet, followed by a remainder
at which the decoder ends: the result is the body of the part, and the filename
does not depend on the header lines beyond the filename they leave. -/
theorem read_target (b name file file1 close tail : Str) (body : List Str)
    (hl : ∀ l ∈ body, '\n' ∉ l ∧ starts_with l b = false)
    (hc : '\n' ∉ close) (hb : starts_with close b = true)
    (hrem : Remainder b body close tail) :
    ∃ f, ∀ hs : List Str, (∀ h ∈ hs, '\n' ∉ h ∧ h ≠ []) →
      scanName name hs = "pdb".toList → scanFile file hs = file1 →
      ∃ m, readParts m ⟨(Part.mk hs body close).render tail, false, false⟩ b name file [] =
        some (.returned (unlines body, f)) := by
  have cap : capture "pdb".toList [] body = unlines body := by
    have : isTarget "pdb".toList = true := by decide
    unfold capture
    rw [this]
    simp
  have stop_case : ∀ tl : Str, tailOK close tl = true →
      stops b "pdb".toList (unlines body) close = true →
      ∀ hs : List Str, (∀ h ∈ hs, '\n' ∉ h ∧ h ≠ []) →
      scanName name hs = "pdb".toList → scanFile file hs = file1 →
      ∃ m, readParts m ⟨(Part.mk hs body close).render tl, false, false⟩ b name file [] =
        some (.returned (unlines body, file1)) := by
    intro tl hk hs0 hs hh hn hf
    obtain ⟨m, hm⟩ := part_stop (Part.mk hs body close) tl b name file [] ⟨hh, hl, hc, hb⟩ hk
      (by simp only [hn, cap]; exact hs0)
    simp only [hn, cap, hf] at hm
    exact ⟨m, hm⟩
  rcases hrem with ⟨hk, hstop⟩ | ⟨init, last, tail1, rfl, hw, hn, ht, hk⟩
  · refine ⟨file1, stop_case tail hk ?_⟩
    have : isTarget "pdb".toList = true := by decide
    unfold stops
    rw [this]
    rcases hstop with h2 | h2
    · simp [h2]
    · simp [h2]
  · by_cases hs0 : stops b "pdb".toList (unlines body) close = true
    · exact ⟨file1, stop_case _ (by simp [tailOK]) hs0⟩
    · obtain ⟨m, f, hm⟩ := discard_parts init last tail1 b "pdb".toList file1 (unlines body)
        hw hn ht hk
      refine ⟨f, fun hs hh hnm hf => ?_⟩
      exact part_step (Part.mk hs body close) _ b name file [] ⟨hh, hl, hc, hb⟩
        (by simp only [hnm, cap]; simpa using hs0)
        (by simp only [hnm, cap, hf]; exact hm)

/-- Reordering the header lines of a part keeps them well formed and keeps its
one `Content-Disposition: form-data` line. -/
theorem single_cd_perm (b cd close : Str) (hs hs' body : List Str) (hperm : hs'.Perm hs)
    (hwf : (Part.mk hs body close).wf b) (hcd : hs.filter isCD = [cd]) :
    (Part.mk hs' body close).wf b ∧ hs'.filter isCD = [cd] := by
  obtain ⟨hh, hl, hc, hcb⟩ := hwf
  refine ⟨⟨fun h hm => hh h (hperm.subset hm), hl, hc, hcb⟩, ?_⟩
  have := hperm.filter isCD
  rw [hcd] at this
  exact List.perm_singleton.mp this

/-! ## The end of input inside a body -/

/-- Once the stream has met the end of input, a non-empty line that does not
start with the boundary keeps the inner loop running for ever. -/
theorem readBody_stuck (fuel : Nat) (s : istream) (b name line pdb : Str)
    (he : s.eofbit = true) (hl : line.isEmpty = false) (hb : starts_with line b = false) :
    readBody fuel s b name line pdb = none := by
  induction fuel generalizing s pdb with
  | zero => rfl
  | succ n ih =>
    rw [readBody]
    simp only [getline_eof s line he, hl, Bool.false_and, Bool.false_eq_true, if_false, hb]
    by_cases t : isTarget name = true
    · simp only [t, if_true]; exact ih _ _ he
    · simp only [t, if_false]; exact ih _ _ he

theorem readBody_truncated (fuel : Nat) (ls : List Str) (l b name line pdb : Str)
    (hls : ∀ x ∈ ls, '\n' ∉ x ∧ starts_with x b = false)
    (h1 : '\n' ∉ l) (h2 : l.isEmpty = false) (h3 : starts_with l b = false) :
    readBody fuel ⟨unlines ls ++ l, false, false⟩ b name line pdb = none := by
  induction ls generalizing fuel line pdb with
  | nil =>
    cases fuel with
    | zero => rfl
    | succ n =>
      rw [readBody]
      simp only [unlines, List.nil_append, getline_last l line h1, h2, Bool.false_and,
        Bool.false_eq_true, if_false, h3]
      by_cases t : isTarget name = true
      · simp only [t, if_true]; exact readBody_stuck _ _ _ _ _ _ rfl h2 h3
      · simp only [t, if_false]; exact readBody_stuck _ _ _ _ _ _ rfl h2 h3
  | cons x xs ih =>
    have hx := hls x (by simp)
    have ih2 := fun fuel line pdb => ih fuel line pdb (fun y hy => hls y (by simp [hy]))
    have e : unlines (x :: xs) ++ l = x ++ '\n' :: (unlines xs ++ l) := by simp [unlines]
    cases fuel with
    | zero => rfl
    | succ n =>
      rw [e, readBody]
      simp only [getline_line x _ line hx.1, istream.eof, Bool.and_false, Bool.false_eq_true,
        if_false, hx.2, ih2]
      simp

/-- A payload cut inside a body line, after complete header lines and body
lines: the decoder neither returns nor throws, whatever the fuel. -/
theorem readParts_truncated (fuel : Nat) (hs ls : List Str) (l b name file pdb : Str)
    (hh : ∀ h ∈ hs, '\n' ∉ h ∧ h ≠ [])
    (hls : ∀ x ∈ ls, '\n' ∉ x ∧ starts_with x b = false)
    (h1 : '\n' ∉ l) (h2 : l.isEmpty = false) (h3 : starts_with l b = false) :
    readParts fuel ⟨unlines hs ++ '\n' :: (unlines ls ++ l), false, false⟩ b name file pdb =
      none := by
  induction hs generalizing fuel name file with
  | nil =>
    cases fuel with
    | zero => rfl
    | succ n =>
      have g := getline_line [] (unlines ls ++ l) [] (by simp)
      simp only [List.nil_append] at g
      have k0 : starts_with [] kContentDisposition = false := by decide
      rw [readParts]
      simp only [unlines, List.nil_append, g, readBody_truncated n ls l b name [] pdb hls h1 h2 h3,
        k0, List.isEmpty_nil, istream.eof, Bool.and_false, Bool.false_eq_true, if_false,
        Bool.not_true]
  | cons h hs ih =>
    have hx := hh h (by simp)
    have hne : h.isEmpty = false := by
      cases h with
      | nil => exact absurd rfl hx.2
      | cons _ _ => rfl
    have ih2 := fun fuel name file => ih fuel name file (fun y hy => hh y (by simp [hy]))
    have e : unlines (h :: hs) ++ '\n' :: (unlines ls ++ l) =
        h ++ '\n' :: (unlines hs ++ '\n' :: (unlines ls ++ l)) := by simp [unlines]
    cases fuel with
    | zero => rfl
    | succ n =>
      rw [e, readParts]
      simp only [getline_line h _ [] hx.1, hne, Bool.false_and, Bool.false_eq_true, if_false,
        Bool.not_false, if_true, ih2]
      simp

/-! ## The header lines read -/

theorem readPartsTrace_fst (fuel : Nat) (s : istream) (b name file pdb : Str) :
    (readPartsTrace fuel s b name file pdb).map Prod.fst = readParts fuel s b name file pdb := by
  induction fuel generalizing s name file pdb with
  | zero => rfl
  | succ n ih =>
    rw [readPartsTrace, readParts]
    split_ifs with c1 c2 c3
    · rfl
    · rw [← ih]; simp [Option.map_map, Function.comp_def]
    · rw [← ih]; simp [Option.map_map, Function.comp_def]
    · cases hb : readBody n (getline s []).1 b name (getline s []).2 pdb with
      | none => rfl
      | some o =>
        cases o with
        | thrown e => rfl
        | returned a =>
          obtain ⟨s1, line, pdb1⟩ := a
          simp only
          split_ifs with d1 d2
          · rfl
          · rfl
          · exact ih _ _ _ _

theorem lastFilename_cons (file h : Str) (l : List Str) :
    lastFilename file (h :: l) = lastFilename ((carriedFilename h).getD file) l := by
  unfold lastFilename
  cases hc : carriedFilename h with
  | none => simp [List.filterMap_cons, hc]
  | some v =>
    simp only [List.filterMap_cons, hc, Option.getD_some]
    rw [List.getLast?_cons]
    simp

theorem readPartsTrace_file (fuel : Nat) (s : istream) (b name file pdb : Str)
    {pdb' file' : Str} {tr : List Str}
    (h : readPartsTrace fuel s b name file pdb = some (.returned (pdb', file'), tr)) :
    file' = lastFilename file tr := by
  induction fuel generalizing s name file pdb tr with
  | zero => simp [readPartsTrace] at h
  | succ n ih =>
    rw [readPartsTrace] at h
    split_ifs at h with c1 c2 c3
    · simp at h
    · simp only [Option.map_eq_some'] at h
      obtain ⟨x, hx, e⟩ := h
      obtain ⟨o, t⟩ := x
      simp only [Prod.mk.injEq] at e
      obtain ⟨rfl, rfl⟩ := e
      rw [lastFilename_cons, ih _ _ _ _ hx]
      have : isCD (getline s []).2 = true := c2
      simp [carriedFilename, this, fileOf]
      cases fre (getline s []).2 <;> rfl
    · simp only [Option.map_eq_some'] at h
      obtain ⟨x, hx, e⟩ := h
      obtain ⟨o, t⟩ := x
      simp only [Prod.mk.injEq] at e
      obtain ⟨rfl, rfl⟩ := e
      rw [lastFilename_cons, ih _ _ _ _ hx]
      have : isCD (getline s []).2 = false := by simpa [isCD] using c2
      simp [carriedFilename, this]
    · cases hb : readBody n (getline s []).1 b name (getline s []).2 pdb with
      | none => simp [hb] at h
      | some o =>
        rw [hb] at h
        cases o with
        | thrown e => simp at h
        | returned a =>
          obtain ⟨s1, line, pdb1⟩ := a
          simp only at h
          split_ifs at h with d1 d2
          · simp only [Option.some.injEq, Prod.mk.injEq, Outcome.returned.injEq] at h
            obtain ⟨⟨-, rfl⟩, rfl⟩ := h
            rfl
          · simp only [Option.some.injEq, Prod.mk.injEq, Outcome.returned.injEq] at h
            obtain ⟨⟨-, rfl⟩, rfl⟩ := h
            rfl
          · exact ih _ _ _ _ h

/-! ## The router -/

theorem post_ne_get {m : Str} (h : m = "POST".toList) : (m == "GET".toList) = false := by
  subst h; decide

theorem hssp_not_dssp (u : Str) (h : starts_with u "PDB2HSSP".toList = true) :
    starts_with u "PDB2DSSP".toList = false := by
  unfold starts_with at h
  rw [List.isPrefixOf_iff_prefix] at h
  obtain ⟨t, rfl⟩ := h
  simp [starts_with, List.isPrefixOf]

theorem post_get : ("POST".toList == "GET".toList) = false := by decide

theorem seq_not_pdb (u : Str) (h : starts_with u "SEQ2HSSP".toList = true) :
    starts_with u "PDB2DSSP".toList = false ∧ starts_with u "PDB2HSSP".toList = false := by
  cases u with
  | nil => simp [starts_with] at h
  | cons c t =>
    have hc : c = 'S' := by
      simp [starts_with, List.isPrefixOf] at h
      exact h.1.symm
    subst hc
    constructor <;> simp [starts_with, List.isPrefixOf]

theorem find_first (needle : Str) (pre rest : Str) (hne : needle ≠ [])
    (hfirst : ∀ k, k < pre.length → needle.isPrefixOf ((pre ++ needle ++ rest).drop k) = false) :
    find (pre ++ needle ++ rest) needle = some pre.length := by
  induction pre with
  | nil =>
    cases needle with
    | nil => exact absurd rfl hne
    | cons a t =>
      have : (a :: t).isPrefixOf (a :: t ++ rest) = true := by
        rw [List.isPrefixOf_iff_prefix]; exact List.prefix_append _ _
      simp only [List.nil_append, List.cons_append, find, List.length_nil]
      rw [List.cons_append] at this
      simp [this]
  | cons x xs ih =>
    have h0 := hfirst 0 (by simp)
    simp only [List.drop_zero, List.cons_append] at h0
    have ih2 := ih (fun k hk => by
      have := hfirst (k + 1) (by simp; omega)
      simpa using this)
    have e : x :: xs ++ needle ++ rest = x :: (xs ++ needle ++ rest) := by simp
    rw [e, find]
    simp only [h0, Bool.false_eq_true, if_false, ih2, Option.map_some', List.length_cons]

theorem find_map_replace (name value : Str) (l : List (Str × Str))
    (c : l.any (fun h => h.1 == name) = true) :
    ((l.map (fun h => if h.1 == name then (h.1, value) else h)).find?
      (fun h => h.1 == name)).map (fun h => h.2) = some value := by
  induction l with
  | nil => simp at c
  | cons x xs ih =>
    by_cases hx : (x.1 == name) = true
    · simp [List.find?, hx]
    · have hx' : (x.1 == name) = false := by simpa using hx
      simp only [List.any_cons, hx', Bool.false_or] at c
      simp only [List.map_cons, hx', Bool.false_eq_true, if_false, List.find?, ih c]

theorem header_set_header (rep : reply) (name value : Str) :
    (rep.set_header name value).header name = some value := by
  unfold reply.set_header reply.header
  split_ifs with c
  · exact find_map_replace name value rep.headers c
  · have hn : rep.headers.find? (fun h => h.1 == name) = none := by
      rw [List.find?_eq_none]
      intro x hx
      simp only [List.any_eq_true, not_exists, not_and] at c
      exact c x hx
    simp [List.find?_append, hn]

theorem replace_extension_pdb (x ext : Str) (h1 : ext.isEmpty = false)
    (h2 : ext.head? = some '.') :
    replace_extension (x ++ ".pdb".toList) ext = x ++ ext := by
  have hf : path_filename (x ++ ".pdb".toList) =
      (x.reverse.takeWhile (fun c => c != '/')).reverse ++ ".pdb".toList := by
    simp [path_filename, List.reverse_append, List.takeWhile]
  have he : path_extension (x ++ ".pdb".toList) = ".pdb".toList := by
    unfold path_extension
    rw [hf]
    generalize (x.reverse.takeWhile (fun c => c != '/')).reverse = y
    have a1 : (y ++ ".pdb".toList == ['.']) = false := by
      cases y with
      | nil => decide
      | cons a t => cases t <;> simp
    have a2 : (y ++ ".pdb".toList == ['.', '.']) = false := by
      cases y with
      | nil => decide
      | cons a t =>
        cases t with
        | nil => simp
        | cons b u => cases u <;> simp
    have a3 : (y ++ ".pdb".toList).contains '.' = true := by simp
    simp only [a1, a2, a3, Bool.or_self, Bool.false_eq_true, if_false, if_true]
    simp [List.reverse_append, List.takeWhile]
  unfold replace_extension
  rw [he]
  simp [h1, h2]

/-- Every exception that leaves the `try` block is one of the failures of
`Raised`. -/
theorem raised_of_thrown (fuel : Nat) (srv : hssp_server) (req : request) (rep : reply)
    (what : Str)
    (h : handle_request_try fuel srv req (normalise_uri req.uri) rep = some (.thrown what)) :
    Raised fuel srv req what := by
  unfold handle_request_try at h
  by_cases c1 : (req.method == "GET".toList && ((normalise_uri req.uri).isEmpty ||
      starts_with (normalise_uri req.uri) "index.htm".toList)) = true
  · simp only [c1, if_true] at h
    simp at h
  by_cases c2 : (req.method == "POST".toList) = true
  swap
  · simp only [c1, c2, Bool.false_eq_true, if_false] at h
    simp at h
  have hm : req.method = "POST".toList := by simpa using c2
  by_cases c3 : (starts_with (normalise_uri req.uri) "PDB2DSSP".toList ||
      starts_with (normalise_uri req.uri) "PDB2HSSP".toList) = true
  · simp only [c1, c2, c3, Bool.false_eq_true, if_false, if_true] at h
    cases hd : GetPDBFileFromPayload fuel req.payload [] [] with
    | none => rw [hd] at h; simp at h
    | some o =>
      rw [hd] at h
      cases o with
      | thrown e =>
        simp only [Option.some.injEq, Outcome.thrown.injEq] at h
        subst h
        refine Raised.decode _ hm ?_ hd
        simpa using c3
      | returned a =>
        obtain ⟨pdb, file⟩ := a
        simp only at h
        by_cases c5 : starts_with (normalise_uri req.uri) "PDB2DSSP".toList = true
        · simp only [c5, if_true] at h
          cases hs : srv.GetDSSPForPDBFile pdb with
          | returned r => rw [hs] at h; simp at h
          | thrown e =>
            rw [hs] at h
            simp only [Option.some.injEq, Outcome.thrown.injEq] at h
            subst h
            exact Raised.assign pdb file _ hm c5 hd hs
        · simp only [c5, Bool.false_eq_true, if_false] at h
          cases hs : srv.GetHSSPForPDBFile pdb with
          | returned r => rw [hs] at h; simp at h
          | thrown e =>
            rw [hs] at h
            simp only [Option.some.injEq, Outcome.thrown.injEq] at h
            subst h
            have c5' : starts_with (normalise_uri req.uri) "PDB2DSSP".toList = false := by
              simpa using c5
            have c3' : starts_with (normalise_uri req.uri) "PDB2HSSP".toList = true := by
              rw [c5'] at c3; simpa using c3
            exact Raised.align pdb file _ hm c5' c3' hd hs
  · simp only [c1, c2, c3, Bool.false_eq_true, if_false, if_true] at h
    by_cases c4 : starts_with (normalise_uri req.uri) "SEQ2HSSP".toList = true
    swap
    · simp only [c4, Bool.false_eq_true, if_false] at h
      simp at h
    simp only [c4, if_true] at h
    cases hf : find req.payload "seq=".toList with
    | none =>
      rw [hf] at h
      simp only [Option.some.injEq, Outcome.thrown.injEq] at h
      subst h
      exact Raised.missing hm c4 hf
    | some p =>
      rw [hf] at h
      simp only at h
      cases hs : srv.GetHSSPForSequence (srv.decode_url (List.drop (p + 4) req.payload)) with
      | returned r => rw [hs] at h; simp at h
      | thrown e =>
        rw [hs] at h
        simp only [Option.some.injEq, Outcome.thrown.injEq] at h
        subst h
        exact Raised.alignSeq p _ hm c4 hf hs

/-! ## Delegation and the daemon -/

theorem routed_false_try (fuel : Nat) (srv : hssp_server) (req : request) (rep : reply)
    (h : routed req = false) :
    handle_request_try fuel srv req (normalise_uri req.uri) rep =
      some (.returned (rep, false)) := by
  unfold routed at h
  simp only [Bool.or_eq_false_iff] at h
  obtain ⟨h1, h2⟩ := h
  unfold handle_request_try
  simp only [h1, Bool.false_eq_true, if_false]
  by_cases c2 : (req.method == "POST".toList) = true
  · simp only [c2, Bool.true_and, Bool.or_eq_false_iff] at h2
    obtain ⟨⟨a, b⟩, c⟩ := h2
    simp only [c2, if_true, a, b, c, Bool.or_self, Bool.false_eq_true, if_false]
  · simp only [c2, Bool.false_eq_true, if_false]

theorem routed_true_try (fuel : Nat) (srv : hssp_server) (req : request) (rep r : reply)
    (handled : Bool) (h : routed req = true)
    (ht : handle_request_try fuel srv req (normalise_uri req.uri) rep =
      some (.returned (r, handled))) : handled = true := by
  unfold handle_request_try at ht
  by_cases c1 : (req.method == "GET".toList && ((normalise_uri req.uri).isEmpty ||
      starts_with (normalise_uri req.uri) "index.htm".toList)) = true
  · simp only [c1, if_true, Option.some.injEq, Outcome.returned.injEq, Prod.mk.injEq] at ht
    exact ht.2.symm
  have c1' : (req.method == "GET".toList && ((normalise_uri req.uri).isEmpty ||
      starts_with (normalise_uri req.uri) "index.htm".toList)) = false := by
    simpa using c1
  unfold routed at h
  rw [c1', Bool.false_or, Bool.and_eq_true] at h
  obtain ⟨c2, c3⟩ := h
  simp only [c1', c2, Bool.false_eq_true, if_true, if_false] at ht
  by_cases c4 : (starts_with (normalise_uri req.uri) "PDB2DSSP".toList ||
      starts_with (normalise_uri req.uri) "PDB2HSSP".toList) = true
  · simp only [c4, if_true] at ht
    cases hd : GetPDBFileFromPayload fuel req.payload [] [] with
    | none => rw [hd] at ht; simp at ht
    | some o =>
      rw [hd] at ht
      cases o with
      | thrown e => simp at ht
      | returned a =>
        obtain ⟨pdb, file⟩ := a
        simp only at ht
        by_cases c5 : starts_with (normalise_uri req.uri) "PDB2DSSP".toList = true
        · simp only [c5, if_true] at ht
          cases hs : srv.GetDSSPForPDBFile pdb with
          | thrown e => rw [hs] at ht; simp at ht
          | returned x =>
            rw [hs] at ht
            simp only [Option.some.injEq, Outcome.returned.injEq, Prod.mk.injEq] at ht
            exact ht.2.symm
        · simp only [c5, Bool.false_eq_true, if_false] at ht
          cases hs : srv.GetHSSPForPDBFile pdb with
          | thrown e => rw [hs] at ht; simp at ht
          | returned x =>
            rw [hs] at ht
            simp only [Option.some.injEq, Outcome.returned.injEq, Prod.mk.injEq] at ht
            exact ht.2.symm
  · have c4' : (starts_with (normalise_uri req.uri) "PDB2DSSP".toList ||
        starts_with (normalise_uri req.uri) "PDB2HSSP".toList) = false := by simpa using c4
    rw [c4', Bool.false_or] at c3
    simp only [c4', c3, Bool.false_eq_true, if_true, if_false] at ht
    cases hf : find req.payload "seq=".toList with
    | none => rw [hf] at ht; simp at ht
    | some p =>
      rw [hf] at ht
      simp only at ht
      cases hs : srv.GetHSSPForSequence (srv.decode_url (List.drop (p + 4) req.payload)) with
      | thrown e => rw [hs] at ht; simp at ht
      | returned x =>
        rw [hs] at ht
        simp only [Option.some.injEq, Outcome.returned.injEq, Prod.mk.injEq] at ht
        exact ht.2.symm

theorem routed_true_catch (fuel : Nat) (srv : hssp_server) (req : request) (rep r : reply)
    (handled : Bool) (h : routed req = true)
    (hc : handle_request_catch fuel srv req rep = some (r, handled)) : handled = true := by
  unfold handle_request_catch at hc
  cases ht : handle_request_try fuel srv req (normalise_uri req.uri) rep with
  | none => rw [ht] at hc; simp at hc
  | some o =>
    rw [ht] at hc
    cases o with
    | thrown e =>
      simp only [Option.some.injEq, Prod.mk.injEq] at hc
      exact hc.2.symm
    | returned a =>
      obtain ⟨r1, h1⟩ := a
      simp only [Option.some.injEq, Prod.mk.injEq] at hc
      obtain ⟨-, rfl⟩ := hc
      exact routed_true_try fuel srv req rep r1 h1 h ht

/-- The steps of `Daemonize` other than the second `fork`: a failure ends the
process with the exit code 1. -/
theorem Daemonize_fatal_steps (sys : SysCalls) (inUser : Str) :
    (sys.fork1 = -1 → (Daemonize sys inUser).outcome = .exited 1) ∧
    (sys.fork1 = 0 → sys.setsid < 0 → (Daemonize sys inUser).outcome = .exited 1) ∧
    (sys.fork1 = 0 → 0 ≤ sys.setsid → sys.fork2 = 0 → sys.chdir ≠ 0 →
      (Daemonize sys inUser).outcome = .exited 1) ∧
    (sys.fork1 = 0 → 0 ≤ sys.setsid → sys.fork2 = 0 → sys.chdir = 0 → 0 < inUser.length →
      (sys.getpwnam = none ∨ sys.setuid < 0) → (Daemonize sys inUser).outcome = .exited 1) := by
  refine ⟨fun h1 => ?_, fun h1 h2 => ?_, fun h1 h2 h3 h4 => ?_, fun h1 h2 h3 h4 h5 h6 => ?_⟩
  · simp [Daemonize, h1]
  · simp [Daemonize, h1, h2]
  · simp [Daemonize, h1, Int.not_lt.mpr h2, h3, h4]
  · unfold Daemonize
    simp only [h1, Int.not_lt.mpr h2, h3, h4]
    cases hg : sys.getpwnam with
    | none => simp [h5]
    | some u =>
      rcases h6 with h6 | h6
      · rw [hg] at h6; simp at h6
      · simp [h5, h6]

/-! ## What follows the line at which the decoder stops -/

theorem newline_filter_append_aux (n : Nat) :
    ∀ P S : Str, P.length ≤ n → ∃ S1, newline_filter (P ++ S) = newline_filter P ++ S1 := by
  induction n with
  | zero =>
    intro P S hP
    have : P = [] := List.length_eq_zero.mp (Nat.le_zero.mp hP)
    subst this
    exact ⟨newline_filter S, by simp [newline_filter]⟩
  | succ n ih =>
    intro P S hP
    match P, hP with
    | [], _ => exact ⟨newline_filter S, by simp [newline_filter]⟩
    | [c], _ =>
      cases S with
      | nil => exact ⟨[], by simp⟩
      | cons d u =>
        by_cases hc : c = '\r'
        · by_cases hd : d = '\n'
          · exact ⟨newline_filter u, by simp [newline_filter, hc, hd]⟩
          · exact ⟨newline_filter (d :: u), by simp [newline_filter, hc, hd]⟩
        · exact ⟨newline_filter (d :: u), by simp [newline_filter, hc]⟩
    | c :: d :: u, hP =>
      have hu : u.length ≤ n := by simp at hP; omega
      have hdu : (d :: u).length ≤ n := by simp at hP ⊢; omega
      by_cases hc : c = '\r'
      · by_cases hd : d = '\n'
        · obtain ⟨S1, h1⟩ := ih u S hu
          exact ⟨S1, by simp [newline_filter, hc, hd, h1]⟩
        · obtain ⟨S1, h1⟩ := ih (d :: u) S hdu
          refine ⟨S1, ?_⟩
          rw [List.cons_append, List.cons_append] at *
          simp only [newline_filter, hc, hd, if_true, if_false]
          rw [h1]
          simp
      · obtain ⟨S1, h1⟩ := ih (d :: u) S hdu
        refine ⟨S1, ?_⟩
        rw [List.cons_append, List.cons_append] at *
        simp only [newline_filter, hc, if_false]
        rw [h1]
        simp

/-- Text added to a payload only adds text after its filtered form. -/
theorem newline_filter_append (P S : Str) :
    ∃ S1, newline_filter (P ++ S) = newline_filter P ++ S1 :=
  newline_filter_append_aux P.length P S (Nat.le_refl _)

theorem render_append (p : Part) (rest x : Str) : p.render rest ++ x = p.render (rest ++ x) := by
  simp [Part.render, List.append_assoc]

theorem renderParts_append (ps : List Part) (rest x : Str) :
    renderParts ps rest ++ x = renderParts ps (rest ++ x) := by
  induction ps with
  | nil => rfl
  | cons p ps ih => simp only [renderParts, render_append, List.cons_append, ih]

/-- Parts at which the decoder does not stop are read through. -/
theorem pass_parts (ps : List Part) (rest b name file pdb : Str)
    (hp : passes b name pdb ps = true)
    {r : Outcome (Str × Str)} {n : Nat}
    (h : readParts n ⟨rest, false, false⟩ b (nameAfter name ps) (fileAfter file ps)
      (pdbAfter name pdb ps) = some r) :
    ∃ m, readParts m ⟨renderParts ps rest, false, false⟩ b name file pdb = some r := by
  induction ps generalizing name file pdb with
  | nil => exact ⟨n, h⟩
  | cons p ps ih =>
    simp only [passes, Bool.and_eq_true, decide_eq_true_eq, Bool.not_eq_true'] at hp
    obtain ⟨⟨hw, hs⟩, hps⟩ := hp
    obtain ⟨m, hm⟩ := ih _ _ _ hps h
    rw [renderParts]
    exact part_step p _ b name file pdb hw hs hm

theorem terminal_append (b c x : Str) (hb : starts_with c b = true)
    (ht : terminal b c = true) : terminal b (c ++ x) = true := by
  unfold starts_with at hb
  rw [List.isPrefixOf_iff_prefix] at hb
  obtain ⟨t, rfl⟩ := hb
  unfold terminal at ht ⊢
  rw [List.append_assoc, List.drop_left] at *
  match t, ht with
  | [], ht => simp at ht
  | [a], ht => simp at ht
  | a :: a2 :: t2, ht => simpa using ht

/-- The decoder ends at the closing line of a part at which it stops, whatever
follows the text of that line. -/
theorem part_stop_any (p : Part) (tail b name file pdb : Str) (hp : p.wf b)
    (hne : p.close ≠ [])
    (hs : stops b (scanName name p.headers) (capture (scanName name p.headers) pdb p.body)
      p.close = true) :
    ∃ m, readParts m ⟨p.render tail, false, false⟩ b name file pdb =
      some (.returned (capture (scanName name p.headers) pdb p.body, scanFile file p.headers)) := by
  obtain ⟨hh, hl, hc, hb⟩ := hp
  have hsplit : tail.takeWhile (fun c => c != '\n') ++ tail.dropWhile (fun c => c != '\n') = tail :=
    List.takeWhile_append_dropWhile _ _
  have hfrag : '\n' ∉ tail.takeWhile (fun c => c != '\n') := by
    intro hm
    have := List.mem_takeWhile_imp hm
    simp at this
  have hb2 : starts_with (p.close ++ tail.takeWhile (fun c => c != '\n')) b = true := by
    unfold starts_with at hb ⊢
    rw [List.isPrefixOf_iff_prefix] at hb ⊢
    exact hb.trans (List.prefix_append _ _)
  have hwf : (Part.mk p.headers p.body (p.close ++ tail.takeWhile (fun c => c != '\n'))).wf b :=
    ⟨hh, hl, by simp only [List.mem_append, not_or]; exact ⟨hc, hfrag⟩, hb2⟩
  have hk : tailOK (p.close ++ tail.takeWhile (fun c => c != '\n'))
      (tail.dropWhile (fun c => c != '\n')) = true := by
    cases hd : tail.dropWhile (fun c => c != '\n') with
    | nil =>
      cases hcl : p.close with
      | nil => exact absurd hcl hne
      | cons a t => simp [tailOK]
    | cons d u =>
      have := List.head_dropWhile_not (fun c => c != '\n') tail (by rw [hd]; simp)
      simp only [hd, List.head_cons] at this
      simpa [tailOK] using this
  have hs2 : stops b (scanName name p.headers)
      (capture (scanName name p.headers) pdb p.body)
      (p.close ++ tail.takeWhile (fun c => c != '\n')) = true := by
    unfold stops at hs ⊢
    rw [Bool.or_eq_true] at hs ⊢
    rcases hs with h1 | h1
    · exact Or.inl h1
    · exact Or.inr (terminal_append b _ _ hb h1)
  obtain ⟨m, hm⟩ := part_stop
    (Part.mk p.headers p.body (p.close ++ tail.takeWhile (fun c => c != '\n')))
    (tail.dropWhile (fun c => c != '\n')) b name file pdb hwf hk hs2
  refine ⟨m, ?_⟩
  have e : p.render tail = (Part.mk p.headers p.body
      (p.close ++ tail.takeWhile (fun c => c != '\n'))).render
      (tail.dropWhile (fun c => c != '\n')) := by
    simp only [Part.render, List.append_assoc, hsplit]
  rw [e]
  exact hm

/-! ## The claims -/

/-- C1, as amended: the decoder returns the body lines of the part named `pdb`,
each followed by a line feed, when the parts before it are complete, are not
closed by a terminal line and leave a current name other than `pdb` and
`pdbfile`, the part has one `Content-Disposition: form-data` line, in which the
name found is `pdb`, and the decoder ends with that part (`Remainder`).  The
captured text is the same for a second payload that differs in the header lines
of the part only (their order, or the order of the parameters of the
`Content-Disposition` line) as long as the name found is still `pdb`; the
filename is the same too when the same filename is found. -/
theorem C1_pdb_part_body (payload payload' b cd cd' close tail : Str) (pre : List Part)
    (hs hs' body : List Str)
    (hb : '\n' ∉ b)
    (hpre : ∀ p ∈ pre, p.wf b ∧ terminal b p.close = false)
    (hnames : ∀ n ∈ namesAfter [] pre, isTarget n = false)
    (hwf : (Part.mk hs body close).wf b)
    (hcd : hs.filter isCD = [cd])
    (hname : nre cd = some "pdb".toList)
    (hrem : Remainder b body close tail)
    (hp : newline_filter payload =
      b ++ '\n' :: renderParts pre ((Part.mk hs body close).render tail))
    (hwf' : (Part.mk hs' body close).wf b)
    (hcd' : hs'.filter isCD = [cd'])
    (hname' : nre cd' = some "pdb".toList)
    (hp' : newline_filter payload' =
      b ++ '\n' :: renderParts pre ((Part.mk hs' body close).render tail)) :
    ∃ n file file', (fre cd = fre cd' → file = file') ∧ ∀ fuel, n ≤ fuel →
      GetPDBFileFromPayload fuel payload [] [] = some (.returned (unlines body, file)) ∧
      GetPDBFileFromPayload fuel payload' [] [] = some (.returned (unlines body, file')) := by
  obtain ⟨hh, hl, hc, hcb⟩ := hwf
  have hh' := hwf'.1
  have hnm : nameOf cd = "pdb".toList := by simp only [nameOf, hname]
  have hnm' : nameOf cd' = "pdb".toList := by simp only [nameOf, hname']
  have key : ∀ (f f' : Str) (m1 m2 : Nat),
      readParts m1 ⟨(Part.mk hs body close).render tail, false, false⟩ b (nameAfter [] pre)
        (fileAfter [] pre) [] = some (.returned (unlines body, f)) →
      readParts m2 ⟨(Part.mk hs' body close).render tail, false, false⟩ b (nameAfter [] pre)
        (fileAfter [] pre) [] = some (.returned (unlines body, f')) →
      ∃ n, ∀ fuel, n ≤ fuel →
        GetPDBFileFromPayload fuel payload [] [] = some (.returned (unlines body, f)) ∧
        GetPDBFileFromPayload fuel payload' [] [] = some (.returned (unlines body, f')) := by
    intro f f' m1 m2 h1 h2
    obtain ⟨k1, g1⟩ := skip_parts pre _ b [] [] [] hpre hnames h1
    obtain ⟨k2, g2⟩ := skip_parts pre _ b [] [] [] hpre hnames h2
    refine ⟨max k1 k2, fun fuel hfuel => ⟨?_, ?_⟩⟩
    · rw [GetPDBFileFromPayload_boundary fuel payload b _ [] [] hb hp]
      exact readParts_mono (le_trans (Nat.le_max_left _ _) hfuel) g1
    · rw [GetPDBFileFromPayload_boundary fuel payload' b _ [] [] hb hp']
      exact readParts_mono (le_trans (Nat.le_max_right _ _) hfuel) g2
  obtain ⟨f, hf⟩ := read_target b (nameAfter [] pre) (fileAfter [] pre)
    (fileOf cd (fileAfter [] pre)) close tail body hl hc hcb hrem
  obtain ⟨m1, h1⟩ := hf hs hh (by rw [scanName_single _ cd hs hcd, hnm])
    (scanFile_single _ cd hs hcd)
  by_cases e : fre cd = fre cd'
  · obtain ⟨m2, h2⟩ := hf hs' hh' (by rw [scanName_single _ cd' hs' hcd', hnm'])
      (by rw [scanFile_single _ cd' hs' hcd']; simp only [fileOf, e])
    obtain ⟨n, hn⟩ := key f f m1 m2 h1 h2
    exact ⟨n, f, f, fun _ => rfl, hn⟩
  · obtain ⟨f', hf'⟩ := read_target b (nameAfter [] pre) (fileAfter [] pre)
      (fileOf cd' (fileAfter [] pre)) close tail body hl hc hcb hrem
    obtain ⟨m2, h2⟩ := hf' hs' hh' (by rw [scanName_single _ cd' hs' hcd', hnm'])
      (scanFile_single _ cd' hs' hcd')
    obtain ⟨n, hn⟩ := key f f' m1 m2 h1 h2
    exact ⟨n, f, f', fun h => absurd h e, hn⟩

/-- C1 at a payload with CR LF line ends, and at the same payload with the
header lines and the two parameters swapped. -/
theorem C1_pdb_part_body_witness :
    ∃ n file file', (fre "Content-Disposition: form-data; name=\"pdb\"; filename=\"1abc.pdb\"".toList
        = fre "Content-Disposition: form-data; filename=\"1abc.pdb\"; name=\"pdb\"".toList →
        file = file') ∧ ∀ fuel, n ≤ fuel →
      GetPDBFileFromPayload fuel payloadPdbFirst [] [] =
        some (.returned (unlines ["ATOM 1".toList, "ATOM 2".toList], file)) ∧
      GetPDBFileFromPayload fuel payloadPdbSwapped [] [] =
        some (.returned (unlines ["ATOM 1".toList, "ATOM 2".toList], file')) :=
  C1_pdb_part_body payloadPdbFirst payloadPdbSwapped "--B".toList
    "Content-Disposition: form-data; name=\"pdb\"; filename=\"1abc.pdb\"".toList
    "Content-Disposition: form-data; filename=\"1abc.pdb\"; name=\"pdb\"".toList
    "--B--".toList "\n".toList []
    ["Content-Disposition: form-data; name=\"pdb\"; filename=\"1abc.pdb\"".toList,
      "Content-Type: text/plain".toList]
    ["Content-Type: text/plain".toList,
      "Content-Disposition: form-data; filename=\"1abc.pdb\"; name=\"pdb\"".toList]
    ["ATOM 1".toList, "ATOM 2".toList]
    (by decide) (by decide) (by decide) (by decide) (by decide) (by decide)
    (Or.inl ⟨by decide, Or.inl (by decide)⟩) (by decide) (by decide) (by decide) (by decide)
    (by decide)

/-- C1 fails as stated: the payload `payloadTwoTargets` has the boundary `B`
as its first line and one part named `pdb`, whose body is the line `CCCC`, and
the decoder never returns that body: it returns the body of the part named
`pdbfile` that comes first. -/
theorem C1_counterexample :
    newline_filter payloadTwoTargets = "B".toList ++ '\n' :: renderParts
      [⟨["Content-Disposition: form-data; name=\"pdbfile\"".toList], ["AAAA".toList], "B".toList⟩]
      (Part.render ⟨["Content-Disposition: form-data; name=\"pdb\"".toList],
        ["CCCC".toList], "B--".toList⟩ "\n".toList) ∧
    GetPDBFileFromPayload 8 payloadTwoTargets [] [] =
      some (.returned (unlines ["AAAA".toList], [])) ∧
    ¬ ∃ fuel file, GetPDBFileFromPayload fuel payloadTwoTargets [] [] =
      some (.returned (unlines ["CCCC".toList], file)) := by
  refine ⟨by decide, by decide, ?_⟩
  rintro ⟨fuel, file, h⟩
  have h8 : GetPDBFileFromPayload 8 payloadTwoTargets [] [] =
      some (.returned (unlines ["AAAA".toList], [])) := by decide
  have := GetPDBFileFromPayload_unique h h8
  revert this
  simp [unlines]

/-- C2, the failing input: `payloadTruncated` ends inside a body line, with no
line end after `ACDE`.  With a line feed added the decoder throws "Unexpected
end of file"; without it the decoder neither throws nor returns, whatever the
fuel: the failed `getline` leaves `line` unchanged and non-empty, so the test of
line 131 never fires. -/
theorem C2_truncated_last_line_never_ends :
    GetPDBFileFromPayload 9 (payloadTruncated ++ ['\n']) [] [] = some (.thrown kUnexpectedEOF) ∧
    ∀ fuel, GetPDBFileFromPayload fuel payloadTruncated [] [] = none := by
  refine ⟨by decide, fun fuel => ?_⟩
  have hp : newline_filter payloadTruncated = "--B".toList ++ '\n' ::
      (unlines ["Content-Disposition: form-data; name=\"seq\"".toList] ++
        '\n' :: (unlines [] ++ "ACDE".toList)) := by decide
  rw [GetPDBFileFromPayload_boundary fuel payloadTruncated "--B".toList _ [] [] (by decide) hp]
  exact readParts_truncated fuel _ _ _ _ _ _ _ (by decide) (by decide) (by decide) (by decide)
    (by decide)

/-- C3: whatever failure is raised while a request is handled (the decoder
throws, `seq=` is missing, a call of the strategy throws), `handle_request`
returns a reply: the error template with the first `#ERRSTR` replaced by the
message, of type `text/html`, with the headers that the reply had on entry, and
the request is handled, so that it is not passed to the default handler.  By
`raised_of_thrown` these failures are all the exceptions that leave the `try`
block. -/
theorem C3_failure_gives_error_page (fuel : Nat) (srv : hssp_server) (req : request)
    (rep : reply) (what : Str) (h : Raised fuel srv req what) :
    handle_request fuel srv req rep =
      some ⟨replace_first srv.error_html "#ERRSTR".toList what, "text/html".toList,
        rep.headers⟩ ∧
    handle_request_catch fuel srv req rep =
      some (⟨replace_first srv.error_html "#ERRSTR".toList what, "text/html".toList,
        rep.headers⟩, true) := by
  have key : handle_request_try fuel srv req (normalise_uri req.uri) rep =
      some (.thrown what) := by
    cases h with
    | decode _ hm hr hd =>
      have hr' : (starts_with (normalise_uri req.uri) "PDB2DSSP".toList ||
          starts_with (normalise_uri req.uri) "PDB2HSSP".toList) = true := by
        rcases hr with h1 | h1 <;> simp only [h1, Bool.true_or, Bool.or_true]
      unfold handle_request_try
      simp only [hm, post_get, Bool.false_and, Bool.false_eq_true, if_false, hr', hd,
        beq_self_eq_true, if_true]
    | assign pdb file _ hm hr hd hs =>
      unfold handle_request_try
      simp only [hm, post_get, Bool.false_and, Bool.false_eq_true, if_false, hr, hd,
        beq_self_eq_true, if_true, Bool.true_or, hs]
    | align pdb file _ hm hn hr hd hs =>
      unfold handle_request_try
      simp only [hm, post_get, Bool.false_and, Bool.false_eq_true, if_false, hr, hn, hd,
        beq_self_eq_true, if_true, Bool.or_true, hs]
    | missing hm hr hf =>
      obtain ⟨n1, n2⟩ := seq_not_pdb _ hr
      unfold handle_request_try
      simp only [hm, post_get, Bool.false_and, Bool.false_eq_true, if_false, hr, n1, n2,
        beq_self_eq_true, if_true, Bool.or_self, hf]
    | alignSeq p _ hm hr hf hs =>
      obtain ⟨n1, n2⟩ := seq_not_pdb _ hr
      unfold handle_request_try
      simp only [hm, post_get, Bool.false_and, Bool.false_eq_true, if_false, hr, n1, n2,
        beq_self_eq_true, if_true, Bool.or_self, hf, hs]
  have hc : handle_request_catch fuel srv req rep =
      some (⟨replace_first srv.error_html "#ERRSTR".toList what, "text/html".toList,
        rep.headers⟩, true) := by
    unfold handle_request_catch
    rw [key]
    rfl
  refine ⟨?_, hc⟩
  unfold handle_request
  rw [hc]
  rfl

/-- C3 at two requests to `demoServer`: a `SEQ2HSSP` request without `seq=`,
and a `PDB2DSSP` request whose payload ends before the first boundary line. -/
theorem C3_failure_gives_error_page_witness :
    handle_request 9 demoServer ⟨"POST".toList, "/SEQ2HSSP".toList, "s=ACDE".toList⟩
        ⟨[], "text/plain".toList, []⟩ =
      some ⟨"<html><p>Missing sequence parameters</p></html>".toList, "text/html".toList, []⟩ ∧
    handle_request 9 demoServer ⟨"POST".toList, "/PDB2DSSP".toList, "--B\n\nATOM\n".toList⟩
        ⟨[], "text/plain".toList, []⟩ =
      some ⟨"<html><p>Unexpected end of file</p></html>".toList, "text/html".toList, []⟩ :=
  ⟨(C3_failure_gives_error_page 9 demoServer
      ⟨"POST".toList, "/SEQ2HSSP".toList, "s=ACDE".toList⟩ ⟨[], "text/plain".toList, []⟩ _
      (Raised.missing (by decide) (by decide) (by decide))).1,
   (C3_failure_gives_error_page 9 demoServer
      ⟨"POST".toList, "/PDB2DSSP".toList, "--B\n\nATOM\n".toList⟩ ⟨[], "text/plain".toList, []⟩ _
      (Raised.decode kUnexpectedEOF (by decide) (Or.inl (by decide)) (by decide))).1⟩

/-- C4, the failing input: in `payloadStaleName` the line `SECRET` is the body
of a part that has no `Content-Disposition` line, after an empty part named
`pdb`; the decoder captures it, the name of the first part being still current.
When the second part has a `Content-Disposition` line without a name, the name
becomes `undef` and the line is discarded. -/
theorem C4_stale_name_captures_other_part :
    newline_filter payloadStaleName = "--B".toList ++ '\n' :: renderParts
      [⟨["Content-Disposition: form-data; name=\"pdb\"".toList], [], "--B".toList⟩]
      (Part.render ⟨["Content-Type: text/plain".toList], ["SECRET".toList], "--B--".toList⟩
        "\n".toList) ∧
    GetPDBFileFromPayload 9 payloadStaleName [] [] =
      some (.returned ("SECRET\n".toList, [])) ∧
    GetPDBFileFromPayload 9 payloadUndefName [] [] = some (.returned ([], [])) := by
  refine ⟨by decide, by decide, by decide⟩

/-- C5: when the decoder returns, the filename it gives is the one carried by
the last header line read that carries one (a `Content-Disposition: form-data`
line in which `fre` finds a filename), whichever part the line belongs to, and
it is empty when no header line read carries one. -/
theorem C5_filename_of_last_header (fuel : Nat) (payload pdb file : Str)
    (h : GetPDBFileFromPayload fuel payload [] [] = some (.returned (pdb, file))) :
    ∃ scanned, GetPDBFileFromPayloadTrace fuel payload [] [] =
        some (.returned (pdb, file), scanned) ∧
      file = ((scanned.filterMap carriedFilename).getLast?).getD [] := by
  have e := readPartsTrace_fst fuel (getline ⟨newline_filter payload, false, false⟩ []).1
    (getline ⟨newline_filter payload, false, false⟩ []).2 [] [] []
  unfold GetPDBFileFromPayload at h
  rw [h] at e
  cases ht : readPartsTrace fuel (getline ⟨newline_filter payload, false, false⟩ []).1
    (getline ⟨newline_filter payload, false, false⟩ []).2 [] [] [] with
  | none => rw [ht] at e; simp at e
  | some x =>
    obtain ⟨o, tr⟩ := x
    rw [ht] at e
    simp only [Option.map_some', Option.some.injEq] at e
    subst e
    exact ⟨tr, ht, readPartsTrace_file _ _ _ _ _ _ ht⟩

/-- C5 at `payloadForeignFilename`: the part named `pdb` declares no filename,
and the filename given is the one declared by the part `notes` before it. -/
theorem C5_filename_of_last_header_witness :
    GetPDBFileFromPayload 9 payloadForeignFilename [] [] =
      some (.returned ("ATOM 1\n".toList, "notes.txt".toList)) ∧
    ∃ scanned, GetPDBFileFromPayloadTrace 9 payloadForeignFilename [] [] =
        some (.returned ("ATOM 1\n".toList, "notes.txt".toList), scanned) ∧
      "notes.txt".toList = ((scanned.filterMap carriedFilename).getLast?).getD [] :=
  ⟨by decide, C5_filename_of_last_header 9 payloadForeignFilename "ATOM 1\n".toList
    "notes.txt".toList (by decide)⟩

/-- C6: a well-formed payload (a boundary line, then complete parts, the last
one closed by a terminal line, with or without a line feed after it) in which no
`Content-Disposition: form-data` line declares the name `pdb` or `pdbfile` is
decoded without error, and the captured text is empty. -/
theorem C6_absent_target_empty (payload b tail : Str) (init : List Part) (last : Part)
    (hb : '\n' ∉ b)
    (hw : ∀ p ∈ init ++ [last], p.wf b)
    (hn : ∀ p ∈ init ++ [last], ∀ h ∈ p.headers, isCD h = true → isTarget (nameOf h) = false)
    (ht : terminal b last.close = true) (hk : tailOK last.close tail = true)
    (hp : newline_filter payload = b ++ '\n' :: renderParts init (last.render tail)) :
    ∃ n file, ∀ fuel, n ≤ fuel →
      GetPDBFileFromPayload fuel payload [] [] = some (.returned ([], file)) := by
  have h0 : isTarget [] = false := by decide
  obtain ⟨m, f, hm⟩ := discard_parts init last tail b [] [] [] hw
    (namesAfter_not_target [] _ h0 hn) ht hk
  refine ⟨m, f, fun fuel hfuel => ?_⟩
  rw [GetPDBFileFromPayload_boundary fuel payload b _ [] [] hb hp]
  exact readParts_mono hfuel hm

/-- C6 at a payload with the parts `seq` and `comment`, whose terminal line has
no line end. -/
theorem C6_absent_target_empty_witness :
    ∃ n file, ∀ fuel, n ≤ fuel →
      GetPDBFileFromPayload fuel payloadNoTarget [] [] = some (.returned ([], file)) :=
  C6_absent_target_empty payloadNoTarget "--B".toList [] 
    [⟨["Content-Disposition: form-data; name=\"seq\"".toList], ["ACDE".toList], "--B".toList⟩]
    ⟨["Content-Disposition: form-data; name=\"comment\"".toList], ["none".toList], "--B--".toList⟩
    (by decide) (by decide) (by decide) (by decide) (by decide) (by decide)

/-- C7: a `POST` to a path that starts with `PDB2DSSP` or `PDB2HSSP`, whose
payload is decoded to a structure text `s` longer than 66 characters with no
filename, and for which the call of the strategy returns `result`, is answered
with `result` as `text/plain` and with the attachment filename made of the 4
characters of `s` from offset 62 followed by `.dssp` on the first route and by
`.hssp` on the second. -/
theorem C7_attachment_from_header (fuel : Nat) (srv : hssp_server) (req : request)
    (rep : reply) (s result : Str) (dssp : Bool)
    (hm : req.method = "POST".toList)
    (hr : starts_with (normalise_uri req.uri)
      (if dssp then "PDB2DSSP".toList else "PDB2HSSP".toList) = true)
    (hd : GetPDBFileFromPayload fuel req.payload [] [] = some (.returned (s, [])))
    (hl : 66 < s.length)
    (hs : (if dssp then srv.GetDSSPForPDBFile s else srv.GetHSSPForPDBFile s) =
      .returned result) :
    ∃ r, handle_request fuel srv req rep = some r ∧
      r.content = result ∧ r.content_type = "text/plain".toList ∧
      r.header "Content-disposition".toList =
        some (attachment ((s.drop 62).take 4 ++
          (if dssp then ".dssp".toList else ".hssp".toList))) := by
  have hfile : (([] : Str).isEmpty && decide (s.length > 66)) = true := by
    simp [hl]
  cases dssp with
  | true =>
    simp only [if_true] at hr hs
    refine ⟨(rep.set_content result "text/plain".toList).set_header "Content-disposition".toList
      (attachment ((s.drop 62).take 4 ++ ".dssp".toList)), ?_, ?_, ?_, ?_⟩
    · unfold handle_request handle_request_catch handle_request_try
      simp only [hm, post_get, Bool.false_and, Bool.false_eq_true, if_false, hr, hd,
        beq_self_eq_true, if_true, Bool.true_or, hs, hfile,
        replace_extension_pdb _ ".dssp".toList (by decide) (by decide), Bool.not_true]
    · unfold reply.set_header reply.set_content; split_ifs <;> rfl
    · unfold reply.set_header reply.set_content; split_ifs <;> rfl
    · simp only [if_true]; exact header_set_header _ _ _
  | false =>
    simp only [Bool.false_eq_true, if_false] at hr hs
    have hn := hssp_not_dssp _ hr
    refine ⟨(rep.set_content result "text/plain".toList).set_header "Content-disposition".toList
      (attachment ((s.drop 62).take 4 ++ ".hssp".toList)), ?_, ?_, ?_, ?_⟩
    · unfold handle_request handle_request_catch handle_request_try
      simp only [hm, post_get, Bool.false_and, Bool.false_eq_true, if_false, hr, hn, hd,
        beq_self_eq_true, if_true, Bool.or_true, hs, hfile,
        replace_extension_pdb _ ".hssp".toList (by decide) (by decide), Bool.not_true]
    · unfold reply.set_header reply.set_content; split_ifs <;> rfl
    · unfold reply.set_header reply.set_content; split_ifs <;> rfl
    · simp only [Bool.false_eq_true, if_false]; exact header_set_header _ _ _

/-- C7 at `payloadHeader`, whose structure text has `1ABC` at the offsets 62 to
65: the attachment is `1ABC.dssp` on the route `PDB2DSSP` and `1ABC.hssp` on the
route `PDB2HSSP`. -/
theorem C7_attachment_from_header_witness :
    (∃ r, handle_request 9 demoServer ⟨"POST".toList, "/PDB2DSSP".toList, payloadHeader⟩
        emptyReply = some r ∧
      r.content = "DSSP ".toList ++ pdbText ∧ r.content_type = "text/plain".toList ∧
      r.header "Content-disposition".toList =
        some "attachement; filename=\"1ABC.dssp\"".toList) ∧
    (∃ r, handle_request 9 demoServer ⟨"POST".toList, "/PDB2HSSP".toList, payloadHeader⟩
        emptyReply = some r ∧
      r.content = "HSSP ".toList ++ pdbText ∧ r.content_type = "text/plain".toList ∧
      r.header "Content-disposition".toList =
        some "attachement; filename=\"1ABC.hssp\"".toList) :=
  ⟨C7_attachment_from_header 9 demoServer ⟨"POST".toList, "/PDB2DSSP".toList, payloadHeader⟩
      emptyReply pdbText ("DSSP ".toList ++ pdbText) true (by decide) (by decide) (by decide)
      (by decide) (by decide),
   C7_attachment_from_header 9 demoServer ⟨"POST".toList, "/PDB2HSSP".toList, payloadHeader⟩
      emptyReply pdbText ("HSSP ".toList ++ pdbText) false (by decide) (by decide) (by decide)
      (by decide) (by decide)⟩

/-- C8: on a `POST` to a path that starts with `SEQ2HSSP`, whose payload holds
`seq=` for the first time after `pre`, the strategy is called with the
URL-decoding of all that follows that `seq=`: the reply is the result of that
call as `text/plain` with the attachment filename `hssp-for-sequence`, or the
error page when the call throws. -/
theorem C8_sequence_is_decoded (fuel : Nat) (srv : hssp_server) (req : request) (rep : reply)
    (pre rest : Str)
    (hm : req.method = "POST".toList)
    (hr : starts_with (normalise_uri req.uri) "SEQ2HSSP".toList = true)
    (hp : req.payload = pre ++ "seq=".toList ++ rest)
    (hfirst : ∀ k, k < pre.length → "seq=".toList.isPrefixOf (req.payload.drop k) = false) :
    handle_request fuel srv req rep = some
      (match srv.GetHSSPForSequence (srv.decode_url rest) with
        | .returned result =>
          (rep.set_content result "text/plain".toList).set_header "Content-disposition".toList
            (attachment "hssp-for-sequence".toList)
        | .thrown what =>
          rep.set_content (replace_first srv.error_html "#ERRSTR".toList what)
            "text/html".toList) := by
  obtain ⟨n1, n2⟩ := seq_not_pdb _ hr
  have hf : find req.payload "seq=".toList = some pre.length := by
    rw [hp]
    exact find_first _ pre rest (by decide) (by rw [← hp]; exact hfirst)
  have hd : List.drop (pre.length + 4) req.payload = rest := by
    rw [hp, List.append_assoc, ← List.drop_drop]
    simp only [List.drop_left]
    rfl
  unfold handle_request handle_request_catch handle_request_try
  simp only [hm, post_get, Bool.false_and, Bool.false_eq_true, if_false, hr, n1, n2,
    beq_self_eq_true, if_true, Bool.or_self, hf, hd]
  cases srv.GetHSSPForSequence (srv.decode_url rest) <;> rfl

/-- C8 at the body `id=7&seq=ACDE%20FGH`: the strategy of `demoServer`, which
returns its input behind the tag `HSSP `, is given `ACDE FGH`. -/
theorem C8_sequence_is_decoded_witness :
    handle_request 0 demoServer ⟨"POST".toList, "/SEQ2HSSP".toList, "id=7&seq=ACDE%20FGH".toList⟩
        emptyReply =
      some ⟨"HSSP ACDE FGH".toList, "text/plain".toList,
        [("Content-disposition".toList, "attachement; filename=\"hssp-for-sequence\"".toList)]⟩ :=
  (C8_sequence_is_decoded 0 demoServer
    ⟨"POST".toList, "/SEQ2HSSP".toList, "id=7&seq=ACDE%20FGH".toList⟩ emptyReply
    "id=7&".toList "ACDE%20FGH".toList (by decide) (by decide) (by decide) (by decide)).trans
    (by decide)

/-- C10 fails as stated: the normalised path of `GET /index` starts with `index`
and the request is not answered with the index document: it is not handled and
goes to the default handler. -/
theorem C10_counterexample :
    normalise_uri "/index".toList = "index".toList ∧
    handle_request_catch 0 demoServer ⟨"GET".toList, "/index".toList, []⟩ emptyReply =
      some (emptyReply, false) ∧
    handle_request 0 demoServer ⟨"GET".toList, "/index".toList, []⟩ emptyReply ≠
      some ⟨demoServer.index_html, "text/html".toList, []⟩ := by
  decide

/-- C10, as amended: a `GET` request whose normalised path is empty or starts
with `index.htm` is answered with the index document as it is, of type
`text/html`, the headers of the reply being left as they were; the request is
handled.  The content is the same for all these requests. -/
theorem C10_index_document (fuel : Nat) (srv : hssp_server) (req : request) (rep : reply)
    (hm : req.method = "GET".toList)
    (hu : normalise_uri req.uri = [] ∨
      starts_with (normalise_uri req.uri) "index.htm".toList = true) :
    handle_request fuel srv req rep = some ⟨srv.index_html, "text/html".toList, rep.headers⟩ ∧
    handle_request_catch fuel srv req rep =
      some (⟨srv.index_html, "text/html".toList, rep.headers⟩, true) := by
  have hc : (List.isEmpty (normalise_uri req.uri) ||
      starts_with (normalise_uri req.uri) "index.htm".toList) = true := by
    rcases hu with h1 | h1
    · rw [h1]; rfl
    · rw [h1]; simp
  have e : handle_request_catch fuel srv req rep =
      some (⟨srv.index_html, "text/html".toList, rep.headers⟩, true) := by
    unfold handle_request_catch handle_request_try
    simp only [hm, hc, beq_self_eq_true, Bool.and_self, if_true]
    rfl
  refine ⟨?_, e⟩
  unfold handle_request
  rw [e]
  rfl

/-- C10 at `GET /`, `GET /index.html` and `GET http://host/index.htm?x=1`. -/
theorem C10_index_document_witness :
    handle_request 0 demoServer ⟨"GET".toList, "/".toList, []⟩ emptyReply =
      some ⟨"<html>index</html>".toList, "text/html".toList, []⟩ ∧
    handle_request 0 demoServer ⟨"GET".toList, "/index.html".toList, []⟩ emptyReply =
      some ⟨"<html>index</html>".toList, "text/html".toList, []⟩ ∧
    handle_request 0 demoServer ⟨"GET".toList, "http://host/index.htm?x=1".toList, []⟩
        emptyReply =
      some ⟨"<html>index</html>".toList, "text/html".toList, []⟩ :=
  ⟨(C10_index_document 0 demoServer ⟨"GET".toList, "/".toList, []⟩ emptyReply
      (by decide) (Or.inl (by decide))).1,
   (C10_index_document 0 demoServer ⟨"GET".toList, "/index.html".toList, []⟩ emptyReply
      (by decide) (Or.inr (by decide))).1,
   (C10_index_document 0 demoServer ⟨"GET".toList, "http://host/index.htm?x=1".toList, []⟩
      emptyReply (by decide) (Or.inr (by decide))).1⟩


/-- C11 fails as stated: the normalised path of `GET /index.php` starts with
`index`, and the request is delegated: it is not handled, and the reply is the
one of the default handler. -/
theorem C11_counterexample :
    starts_with (normalise_uri "/index.php".toList) "index".toList = true ∧
    handle_request_catch 0 demoServer ⟨"GET".toList, "/index.php".toList, []⟩ emptyReply =
      some (emptyReply, false) ∧
    handle_request 0 demoServer ⟨"GET".toList, "/index.php".toList, []⟩ emptyReply =
      some (demoServer.base_handle_request ⟨"GET".toList, "/index.php".toList, []⟩
        emptyReply) := by
  decide

/-- C11, as amended: a request is delegated (the flag `handled` is false at the
final test) exactly when it is on none of the routes, the `GET` route being the
one of the paths that are empty or start with `index.htm`; a request on no route
reaches the default handler with the reply untouched; a request on a route is
never delegated, whether its handling succeeds or fails. -/
theorem C11_delegated_iff_no_route (fuel : Nat) (srv : hssp_server) (req : request)
    (rep : reply) :
    ((∃ r, handle_request_catch fuel srv req rep = some (r, false)) ↔ routed req = false) ∧
    (routed req = false →
      handle_request_catch fuel srv req rep = some (rep, false) ∧
      handle_request fuel srv req rep = some (srv.base_handle_request req rep)) ∧
    (routed req = true → ∀ r handled,
      handle_request_catch fuel srv req rep = some (r, handled) →
        handled = true ∧ handle_request fuel srv req rep = some r) := by
  have hfalse : routed req = false →
      handle_request_catch fuel srv req rep = some (rep, false) ∧
      handle_request fuel srv req rep = some (srv.base_handle_request req rep) := by
    intro h
    have e : handle_request_catch fuel srv req rep = some (rep, false) := by
      unfold handle_request_catch
      rw [routed_false_try fuel srv req rep h]
    refine ⟨e, ?_⟩
    unfold handle_request
    rw [e]
    rfl
  refine ⟨⟨fun ⟨r, hr⟩ => ?_, fun h => ⟨rep, (hfalse h).1⟩⟩, hfalse, fun h r handled hc => ?_⟩
  · cases hro : routed req with
    | false => rfl
    | true => exact absurd (routed_true_catch fuel srv req rep r false hro hr) (by decide)
  · have ht := routed_true_catch fuel srv req rep r handled h hc
    subst ht
    refine ⟨rfl, ?_⟩
    unfold handle_request
    rw [hc]
    rfl

/-- C11 at `GET /PDB2DSSP`, `POST /` and `PUT /index.html`, which are delegated
with the reply untouched, and at a `POST /PDB2DSSP` whose decoding fails, which
is not. -/
theorem C11_delegated_iff_no_route_witness :
    handle_request_catch 0 demoServer ⟨"GET".toList, "/PDB2DSSP".toList, []⟩ emptyReply =
      some (emptyReply, false) ∧
    handle_request_catch 0 demoServer ⟨"POST".toList, "/".toList, []⟩ emptyReply =
      some (emptyReply, false) ∧
    handle_request_catch 0 demoServer ⟨"PUT".toList, "/index.html".toList, []⟩ emptyReply =
      some (emptyReply, false) ∧
    ¬ ∃ r, handle_request_catch 9 demoServer
      ⟨"POST".toList, "/PDB2DSSP".toList, "--B\n\nATOM\n".toList⟩ emptyReply = some (r, false) :=
  ⟨((C11_delegated_iff_no_route 0 demoServer ⟨"GET".toList, "/PDB2DSSP".toList, []⟩
      emptyReply).2.1 (by decide)).1,
   ((C11_delegated_iff_no_route 0 demoServer ⟨"POST".toList, "/".toList, []⟩
      emptyReply).2.1 (by decide)).1,
   ((C11_delegated_iff_no_route 0 demoServer ⟨"PUT".toList, "/index.html".toList, []⟩
      emptyReply).2.1 (by decide)).1,
   fun h => absurd ((C11_delegated_iff_no_route 9 demoServer
      ⟨"POST".toList, "/PDB2DSSP".toList, "--B\n\nATOM\n".toList⟩ emptyReply).1.mp h)
      (by decide)⟩

/-- C12: when a payload prefix `P` holds parts that the decoder reads through
and then the closing line of a part at which it stops (followed in `P` by
`tailP`: nothing, or the line end), the decoder returns on `P ++ S`, for every
continuation `S`, the captured text and the filename that it returns on `P`.
The decoder stops at the closing line when the current name is `pdb` or
`pdbfile` and the captured text is longer than 2 characters, and also, whatever
is captured, when the boundary is followed by `--` in the line. -/
theorem C12_stop_ignores_continuation (P S b tailP : Str) (pre : List Part) (T : Part)
    (hb : '\n' ∉ b)
    (hpre : passes b [] [] pre = true)
    (hT : T.wf b) (hne : T.close ≠ [])
    (hstop : (isTarget (scanName (nameAfter [] pre) T.headers) = true ∧
        2 < (capture (scanName (nameAfter [] pre) T.headers) (pdbAfter [] [] pre)
          T.body).length) ∨
      terminal b T.close = true)
    (hP : newline_filter P = b ++ '\n' :: renderParts pre (T.render tailP)) :
    ∃ n, ∀ fuel, n ≤ fuel →
      GetPDBFileFromPayload fuel P [] [] =
        some (.returned (capture (scanName (nameAfter [] pre) T.headers) (pdbAfter [] [] pre)
          T.body, scanFile (fileAfter [] pre) T.headers)) ∧
      GetPDBFileFromPayload fuel (P ++ S) [] [] =
        some (.returned (capture (scanName (nameAfter [] pre) T.headers) (pdbAfter [] [] pre)
          T.body, scanFile (fileAfter [] pre) T.headers)) := by
  have hs : stops b (scanName (nameAfter [] pre) T.headers)
      (capture (scanName (nameAfter [] pre) T.headers) (pdbAfter [] [] pre) T.body)
      T.close = true := by
    unfold stops
    rcases hstop with ⟨h1, h2⟩ | h1
    · simp [h1, h2]
    · simp [h1]
  have any : ∀ (Q tail : Str), newline_filter Q = b ++ '\n' :: renderParts pre (T.render tail) →
      ∃ m, GetPDBFileFromPayload m Q [] [] =
        some (.returned (capture (scanName (nameAfter [] pre) T.headers) (pdbAfter [] [] pre)
          T.body, scanFile (fileAfter [] pre) T.headers)) := by
    intro Q tail hQ
    obtain ⟨m, hm⟩ := part_stop_any T tail b (nameAfter [] pre) (fileAfter [] pre)
      (pdbAfter [] [] pre) hT hne hs
    obtain ⟨k, hk2⟩ := pass_parts pre _ b [] [] [] hpre hm
    refine ⟨k, ?_⟩
    rw [GetPDBFileFromPayload_boundary k Q b _ [] [] hb hQ]
    exact hk2
  obtain ⟨S1, hS⟩ := newline_filter_append P S
  have hPS : newline_filter (P ++ S) =
      b ++ '\n' :: renderParts pre (T.render (tailP ++ S1)) := by
    rw [hS, hP, List.append_assoc, List.cons_append, renderParts_append, render_append]
  obtain ⟨m1, h1⟩ := any P tailP hP
  obtain ⟨m2, h2⟩ := any (P ++ S) (tailP ++ S1) hPS
  exact ⟨max m1 m2, fun fuel hf =>
    ⟨GetPDBFileFromPayload_mono (le_trans (Nat.le_max_left _ _) hf) h1,
     GetPDBFileFromPayload_mono (le_trans (Nat.le_max_right _ _) hf) h2⟩⟩

/-- C12 at `prefixStopped`, continued by a part that declares another filename
and is cut inside its body: the result is the one of the prefix alone. -/
theorem C12_stop_ignores_continuation_witness :
    ∃ n, ∀ fuel, n ≤ fuel →
      GetPDBFileFromPayload fuel prefixStopped [] [] =
        some (.returned ("ATOM 1\n".toList, "1abc.pdb".toList)) ∧
      GetPDBFileFromPayload fuel (prefixStopped ++ continuationCut) [] [] =
        some (.returned ("ATOM 1\n".toList, "1abc.pdb".toList)) :=
  C12_stop_ignores_continuation prefixStopped continuationCut "--B".toList [] []
    ⟨["Content-Disposition: form-data; name=\"pdb\"; filename=\"1abc.pdb\"".toList],
      ["ATOM 1".toList], "--B".toList⟩
    (by decide) (by decide) (by decide) (by decide)
    (Or.inl ⟨by decide, by decide⟩) (by decide)

/-- C13, the failing input: the first `fork` and `setsid` succeed and the second
`fork` fails (returns -1).  `Daemonize` writes "Fork failed" and, without the
`exit(1)` that follows the same message after the first `fork`, runs into
`if (pid != 0) _exit(0)`: the process ends with the exit code 0. -/
theorem C13_second_fork_failure_exits_zero :
    Daemonize ⟨0, 0, -1, 0, some 65534, 0, "Cannot allocate memory".toList⟩ "nobody".toList =
      ⟨["Fork failed".toList], .exited 0⟩ ∧
    Daemonize ⟨-1, 0, 0, 0, some 65534, 0, "Cannot allocate memory".toList⟩ "nobody".toList =
      ⟨["Fork failed".toList], .exited 1⟩ := by
  decide

end Xssp
